import Mathlib

/-!
Verification of the survey-propagation solver core (src/Solver.cpp) against
its natural-language specification.  The C++ code is shallowly embedded:
doubles become exact rationals (ℚ), the factor graph becomes three lists
(variables, clauses, edges) indexed by stable ids, and the recursive
simplifier becomes a fuel-indexed interpreter.  FactorGraph primitives that
live outside src (Dissable, AssignValue, GetEnabledEdges, GetEnabledClauses,
getRandomReal01 and the numeric constants from the header) are modelled from
the spec, as marked on each definition.
-/

set_option maxRecDepth 40000

namespace sat

/-- Result values of the solver algorithms (AlgorithmResult in the source). -/
inductive AlgorithmResult where
  | SAT
  | CONTRADICTION
  | UNCONVERGE
  | WALKSAT
  | CONVERGE
  deriving DecidableEq

/-- Modelled from the spec: saturation threshold `ZERO_EPSILON = 1e-16`
(the constant is declared in a header that is not part of src). -/
def ZERO_EPSILON : ℚ := 1 / 10 ^ 16

/-- Modelled from the spec: convergence threshold `spEpsilon = 0.01`. -/
def spEpsilon : ℚ := 1 / 100

/-- Modelled from the spec: paramagnetic threshold `paramagneticState ≈ 0.01`
(Solver member read at Solver.cpp:61). -/
def paramagneticState : ℚ := 1 / 100

/-- An edge of the factor graph: connects variable `varId` to clause
`clauseId`; `type` is the literal polarity, `survey` the cavity message. -/
structure Edge where
  varId : Nat
  clauseId : Nat
  type : Bool
  enabled : Bool
  survey : ℚ
  deriving DecidableEq

/-- A variable node with its assignment state, cached subproducts
`p, m, pzero, mzero` and biases. -/
structure Variable where
  assigned : Bool
  value : Bool
  p : ℚ
  m : ℚ
  pzero : Nat
  mzero : Nat
  Hp : ℚ
  Hm : ℚ
  Hz : ℚ
  evalValue : ℚ
  deriving DecidableEq

/-- A clause node: only its enabled flag matters to the core. -/
structure Clause where
  enabled : Bool
  deriving DecidableEq

/-- The factor graph: three arenas indexed by stable integer ids.  A
variable's (clause's) incident edge list of the C++ code corresponds to the
sublist of `edges` with matching `varId` (`clauseId`), in arena order.
The C++ field name `variables` is a reserved word in Lean, hence `vars`. -/
structure FactorGraph where
  vars : List Variable
  clauses : List Clause
  edges : List Edge
  deriving DecidableEq

def defaultVariable : Variable :=
  ⟨false, false, 1, 1, 0, 0, 0, 0, 0, 0⟩

def defaultEdge : Edge := ⟨0, 0, true, false, 0⟩

def defaultClause : Clause := ⟨true⟩

def getVar (g : FactorGraph) (vid : Nat) : Variable :=
  g.vars.getD vid defaultVariable

def getEdge (g : FactorGraph) (k : Nat) : Edge :=
  g.edges.getD k defaultEdge

def getClause (g : FactorGraph) (cid : Nat) : Clause :=
  g.clauses.getD cid defaultClause

def modifyVar (g : FactorGraph) (vid : Nat) (f : Variable → Variable) :
    FactorGraph :=
  { g with vars := g.vars.set vid (f (getVar g vid)) }

def setEdgeSurvey (g : FactorGraph) (k : Nat) (s : ℚ) : FactorGraph :=
  { g with edges := g.edges.set k { getEdge g k with survey := s } }

/-- Modelled from the spec (I2/I3): `Clause::Dissable` marks the clause
disabled; its edges may remain marked enabled until explicitly cleared. -/
def disableClause (g : FactorGraph) (cid : Nat) : FactorGraph :=
  { g with clauses := g.clauses.set cid { enabled := false } }

/-- The edge with its enabled flag cleared. -/
def withDisabled (e : Edge) : Edge := { e with enabled := false }

/-- Modelled from the spec (I3): `Edge::Dissable` marks the edge disabled. -/
def disableEdge (g : FactorGraph) (k : Nat) : FactorGraph :=
  { g with edges := g.edges.set k (withDisabled (getEdge g k)) }

/-- Modelled from the spec: `Variable::AssignValue` records the assignment. -/
def assignValueG (g : FactorGraph) (vid : Nat) (b : Bool) : FactorGraph :=
  modifyVar g vid (fun v => { v with assigned := true, value := b })

/-- Indices of the edges incident to variable `vid`
(the C++ `var->allNeighbourEdges`). -/
def varEdgeIdxs (g : FactorGraph) (vid : Nat) : List Nat :=
  (List.range g.edges.length).filter (fun k => (getEdge g k).varId == vid)

/-- Indices of the edges incident to clause `cid`
(the C++ `clause->allNeighbourEdges`). -/
def clauseEdgeIdxs (g : FactorGraph) (cid : Nat) : List Nat :=
  (List.range g.edges.length).filter (fun k => (getEdge g k).clauseId == cid)

/-- Modelled from the spec: `Clause::GetEnabledEdges` filters the clause's
incident edges by their enabled flag. -/
def clauseEnabledEdgeIdxs (g : FactorGraph) (cid : Nat) : List Nat :=
  (clauseEdgeIdxs g cid).filter (fun k => (getEdge g k).enabled)

/-- Modelled from the spec: `FactorGraph::GetEnabledClauses` enumerates the
clauses whose enabled flag is set. -/
def enabledClauseIds (g : FactorGraph) : List Nat :=
  (List.range g.clauses.length).filter (fun cid => (getClause g cid).enabled)

-- ============================================================
-- List access lemmas
-- ============================================================

theorem getD_set {α : Type} (l : List α) (k j : Nat) (a d : α) :
    (l.set k a).getD j d = if k = j ∧ k < l.length then a else l.getD j d := by
  induction l generalizing k j with
  | nil => simp
  | cons x xs ih =>
    cases k with
    | zero =>
      cases j with
      | zero => simp
      | succ j' => simp
    | succ k' =>
      cases j with
      | zero => simp
      | succ j' =>
        have := ih k' j'
        simp only [List.set, List.getD_cons_succ, List.length_cons]
        rw [this]
        by_cases h : k' = j' ∧ k' < xs.length
        · rw [if_pos h, if_pos ⟨by omega, by omega⟩]
        · rw [if_neg h, if_neg (by omega)]

-- ============================================================
-- C7: constructor seed logic (Solver.cpp lines 9-19)
-- ============================================================

/-- Embeds the Solver constructor's seed handling (Solver.cpp:9-19).  The
member `initialSeed` is first set to the caller's `seed`; then the body runs
`if (seed = 0) initialSeed = rd();`.  The condition is an assignment whose
value is 0, which converts to `false`, so the branch taking the entropy
sample `rd()` never executes.  The function returns the `initialSeed` value
finally fed to `randomGenerator.seed`. -/
def initialSeedOf (seed : Int) (entropySample : Int) : Int :=
  let seedAfterAssign : Int := 0
  if seedAfterAssign ≠ 0 then entropySample else seed

/-- C7: the claim says that for `seed = 0` the solver draws the seed from a
nondeterministic entropy source.  In the code the condition `if (seed = 0)`
is an assignment, so the entropy sample is never consulted: the RNG is
always seeded with the caller-supplied seed, including 0. -/
theorem c7_entropy_branch_dead :
    ∀ (seed entropySample : Int), initialSeedOf seed entropySample = seed := by
  intro seed entropySample
  simp [initialSeedOf]

-- ============================================================
-- Per-edge subsurvey (Solver.cpp lines 197-239, first phase)
-- ============================================================

/-- One enabled edge's subsurvey η as computed by `updateSurveys`
(Solver.cpp:197-230).  Note the negative branch sets `wt = m`
(Solver.cpp:226), not the positive-side product `p`. -/
def edgeSubSurvey (v : Variable) (e : Edge) : ℚ :=
  if e.type = true then
    let m : ℚ := if v.mzero ≠ 0 then 0 else v.m
    let p : ℚ :=
      if v.pzero = 0 then v.p / (1 - e.survey)
      else if v.pzero = 1 ∧ 1 - e.survey < ZERO_EPSILON then v.p
      else 0
    let wn := p * (1 - m)
    let wt := m
    wn / (wn + wt)
  else
    let p : ℚ := if v.pzero ≠ 0 then 0 else v.p
    let m : ℚ :=
      if v.mzero = 0 then v.m / (1 - e.survey)
      else if v.mzero = 1 ∧ 1 - e.survey < ZERO_EPSILON then v.m
      else 0
    let wn := m * (1 - p)
    let wt := m
    wn / (wn + wt)

/-- Modelled from the spec: the subsurvey of a negative edge computed
symmetrically to the positive case, with `wn = m·(1−p)` and `wt = p`. -/
def edgeSubSurveySpecNeg (v : Variable) (e : Edge) : ℚ :=
  let p : ℚ := if v.pzero ≠ 0 then 0 else v.p
  let m : ℚ :=
    if v.mzero = 0 then v.m / (1 - e.survey)
    else if v.mzero = 1 ∧ 1 - e.survey < ZERO_EPSILON then v.m
    else 0
  let wn := m * (1 - p)
  let wt := p
  wn / (wn + wt)

/-- A variable state reachable for a variable with one enabled positive edge
of survey 1/2 and the negative edge below. -/
def varC2 : Variable := ⟨false, false, 1 / 2, 1, 0, 0, 0, 0, 0, 0⟩

/-- An enabled negative edge with survey 0. -/
def edgeC2 : Edge := ⟨0, 0, false, true, 0⟩

/-- C2: at a negative enabled edge with cavity products `p = 1/2`, `m = 1`,
the code's weights (`wt = m`, Solver.cpp:226) give `η = 1/3`, while the
claimed symmetric rule (`wt = p`) gives `η = 1/2`.  The negative branch is
therefore not symmetric to the positive one. -/
theorem c2_negative_branch_asymmetric :
    edgeSubSurvey varC2 edgeC2 = 1 / 3 ∧
    edgeSubSurveySpecNeg varC2 edgeC2 = 1 / 2 ∧
    edgeSubSurvey varC2 edgeC2 ≠ edgeSubSurveySpecNeg varC2 edgeC2 :=
  of_decide_eq_true (by with_unfolding_all rfl)

-- ============================================================
-- Subproduct cache (Solver.cpp lines 151-186)
-- ============================================================

/-- The four cached per-variable quantities `p, m, pzero, mzero`. -/
structure SubCache where
  p : ℚ
  m : ℚ
  pzero : Nat
  mzero : Nat
  deriving DecidableEq

/-- One step of the loop body of `computeSubProducts` (Solver.cpp:160-183):
an edge contributes to variable `vid`'s cache iff it is incident and
enabled; a positive edge multiplies `p` by `1 − survey` when that factor
exceeds `ZERO_EPSILON` and otherwise bumps `pzero`; negative edges act on
`m`/`mzero`. -/
def cacheStep (vid : Nat) (c : SubCache) (e : Edge) : SubCache :=
  if e.varId = vid ∧ e.enabled = true then
    if e.type = true then
      if 1 - e.survey > ZERO_EPSILON then { c with p := c.p * (1 - e.survey) }
      else { c with pzero := c.pzero + 1 }
    else
      if 1 - e.survey > ZERO_EPSILON then { c with m := c.m * (1 - e.survey) }
      else { c with mzero := c.mzero + 1 }
  else c

/-- The from-scratch subproducts of variable `vid` (the inner loop of
`Solver::computeSubProducts`, starting from `p = m = 1`, counts 0). -/
def subProductsOf (g : FactorGraph) (vid : Nat) : SubCache :=
  g.edges.foldl (cacheStep vid) ⟨1, 1, 0, 0⟩

/-- Writes the from-scratch subproducts into every unassigned variable
(`Solver::computeSubProducts`, Solver.cpp:151-186). -/
def refreshVar (g : FactorGraph) (vid : Nat) (v : Variable) : Variable :=
  if v.assigned = true then v
  else
    let c := subProductsOf g vid
    { v with p := c.p, m := c.m, pzero := c.pzero, mzero := c.mzero }

/-- Recursion over a list carrying the arena index, used to model loops
that visit every arena entry together with its id. -/
def mapWithIdx {α : Type} (f : Nat → α → α) : Nat → List α → List α
  | _, [] => []
  | i, a :: as => f i a :: mapWithIdx f (i + 1) as

def computeSubProducts (g : FactorGraph) : FactorGraph :=
  { g with vars := mapWithIdx (fun vid v => refreshVar g vid v) 0 g.vars }

/-- Invariant I1 for one variable: the cached `p, m, pzero, mzero` agree
with a from-scratch recomputation from the current surveys. -/
def cacheConsistent (g : FactorGraph) (vid : Nat) : Prop :=
  (getVar g vid).p = (subProductsOf g vid).p ∧
  (getVar g vid).m = (subProductsOf g vid).m ∧
  (getVar g vid).pzero = (subProductsOf g vid).pzero ∧
  (getVar g vid).mzero = (subProductsOf g vid).mzero

instance (g : FactorGraph) (vid : Nat) : Decidable (cacheConsistent g vid) := by
  unfold cacheConsistent; infer_instance

/-- Invariant I1 of the spec: every unassigned variable's cache agrees with
a from-scratch recomputation. -/
def I1 (g : FactorGraph) : Prop :=
  ∀ vid, vid < g.vars.length → (getVar g vid).assigned = false →
    cacheConsistent g vid

instance (g : FactorGraph) : Decidable (I1 g) := by
  unfold I1; infer_instance

-- ============================================================
-- Edge contributions: an algebraic view of the cache fold
-- ============================================================

/-- The multiplicative contribution of one edge to `p` of variable `vid`. -/
def contribP (vid : Nat) (e : Edge) : ℚ :=
  if e.varId = vid ∧ e.enabled = true ∧ e.type = true ∧
      1 - e.survey > ZERO_EPSILON then 1 - e.survey else 1

/-- The multiplicative contribution of one edge to `m` of variable `vid`. -/
def contribM (vid : Nat) (e : Edge) : ℚ :=
  if e.varId = vid ∧ e.enabled = true ∧ e.type = false ∧
      1 - e.survey > ZERO_EPSILON then 1 - e.survey else 1

/-- The contribution of one edge to the saturation count `pzero`. -/
def zContribP (vid : Nat) (e : Edge) : Nat :=
  if e.varId = vid ∧ e.enabled = true ∧ e.type = true ∧
      ¬(1 - e.survey > ZERO_EPSILON) then 1 else 0

/-- The contribution of one edge to the saturation count `mzero`. -/
def zContribM (vid : Nat) (e : Edge) : Nat :=
  if e.varId = vid ∧ e.enabled = true ∧ e.type = false ∧
      ¬(1 - e.survey > ZERO_EPSILON) then 1 else 0

def prodP (vid : Nat) (l : List Edge) : ℚ := (l.map (contribP vid)).prod

def prodM (vid : Nat) (l : List Edge) : ℚ := (l.map (contribM vid)).prod

def sumZP (vid : Nat) (l : List Edge) : Nat := (l.map (zContribP vid)).sum

def sumZM (vid : Nat) (l : List Edge) : Nat := (l.map (zContribM vid)).sum

theorem cacheStep_eq (vid : Nat) (c : SubCache) (e : Edge) :
    cacheStep vid c e =
      ⟨c.p * contribP vid e, c.m * contribM vid e,
       c.pzero + zContribP vid e, c.mzero + zContribM vid e⟩ := by
  cases c
  unfold cacheStep contribP contribM zContribP zContribM
  by_cases h1 : e.varId = vid ∧ e.enabled = true
  · by_cases h2 : e.type = true
    · by_cases h3 : 1 - e.survey > ZERO_EPSILON
      · simp [h1, h2, h3]
      · simp [h1, h2, h3]
    · have h2' : e.type = false := by
        cases ht : e.type
        · rfl
        · exact absurd ht h2
      by_cases h3 : 1 - e.survey > ZERO_EPSILON
      · simp [h1, h2, h2', h3]
      · simp [h1, h2, h2', h3]
  · simp only [if_neg h1]
    have hP : ¬(e.varId = vid ∧ e.enabled = true ∧ e.type = true ∧
        1 - e.survey > ZERO_EPSILON) := by tauto
    have hM : ¬(e.varId = vid ∧ e.enabled = true ∧ e.type = false ∧
        1 - e.survey > ZERO_EPSILON) := by tauto
    have hZP : ¬(e.varId = vid ∧ e.enabled = true ∧ e.type = true ∧
        ¬(1 - e.survey > ZERO_EPSILON)) := by tauto
    have hZM : ¬(e.varId = vid ∧ e.enabled = true ∧ e.type = false ∧
        ¬(1 - e.survey > ZERO_EPSILON)) := by tauto
    rw [if_neg hP, if_neg hM, if_neg hZP, if_neg hZM]
    simp

theorem cacheFold_eq (vid : Nat) :
    ∀ (l : List Edge) (c : SubCache),
      l.foldl (cacheStep vid) c =
        ⟨c.p * prodP vid l, c.m * prodM vid l,
         c.pzero + sumZP vid l, c.mzero + sumZM vid l⟩ := by
  intro l
  induction l with
  | nil =>
    intro c
    cases c
    simp [prodP, prodM, sumZP, sumZM]
  | cons a as ih =>
    intro c
    have step := cacheStep_eq vid c a
    simp only [List.foldl_cons, step, ih]
    simp [prodP, prodM, sumZP, sumZM, mul_assoc, Nat.add_assoc]

theorem subProductsOf_eq (g : FactorGraph) (vid : Nat) :
    subProductsOf g vid =
      ⟨prodP vid g.edges, prodM vid g.edges,
       sumZP vid g.edges, sumZM vid g.edges⟩ := by
  unfold subProductsOf
  rw [cacheFold_eq]
  simp

theorem prod_contrib_set (f : Edge → ℚ) :
    ∀ (l : List Edge) (k : Nat) (e' : Edge), k < l.length →
      ((l.set k e').map f).prod * f (l.getD k defaultEdge) =
        (l.map f).prod * f e' := by
  intro l
  induction l with
  | nil => intro k e' hk; simp at hk
  | cons a as ih =>
    intro k e' hk
    cases k with
    | zero => simp [List.set]; ring
    | succ k' =>
      have hk' : k' < as.length := by simpa using hk
      have := ih k' e' hk'
      simp only [List.set, List.map_cons, List.prod_cons, List.getD_cons_succ]
      calc f a * ((as.set k' e').map f).prod * f (as.getD k' defaultEdge)
          = f a * (((as.set k' e').map f).prod * f (as.getD k' defaultEdge)) := by
            ring
        _ = f a * ((as.map f).prod * f e') := by rw [this]
        _ = f a * (as.map f).prod * f e' := by ring

theorem sum_contrib_set (z : Edge → Nat) :
    ∀ (l : List Edge) (k : Nat) (e' : Edge), k < l.length →
      ((l.set k e').map z).sum + z (l.getD k defaultEdge) =
        (l.map z).sum + z e' := by
  intro l
  induction l with
  | nil => intro k e' hk; simp at hk
  | cons a as ih =>
    intro k e' hk
    cases k with
    | zero => simp [List.set]; omega
    | succ k' =>
      have hk' : k' < as.length := by simpa using hk
      have := ih k' e' hk'
      simp only [List.set, List.map_cons, List.sum_cons, List.getD_cons_succ]
      omega

theorem zContrib_le_sum (z : Edge → Nat) :
    ∀ (l : List Edge) (k : Nat), k < l.length →
      z (l.getD k defaultEdge) ≤ (l.map z).sum := by
  intro l
  induction l with
  | nil => intro k hk; simp at hk
  | cons a as ih =>
    intro k hk
    cases k with
    | zero => simp
    | succ k' =>
      have hk' : k' < as.length := by simpa using hk
      have := ih k' hk'
      simp only [List.getD_cons_succ, List.map_cons, List.sum_cons]
      omega

theorem ZERO_EPSILON_pos : (0 : ℚ) < ZERO_EPSILON := by norm_num [ZERO_EPSILON]

theorem contribP_ne_zero (vid : Nat) (e : Edge) : contribP vid e ≠ 0 := by
  have := ZERO_EPSILON_pos
  unfold contribP
  split
  · rename_i h
    have : ZERO_EPSILON < 1 - e.survey := h.2.2.2
    intro hc
    rw [hc] at this
    linarith
  · norm_num

theorem contribM_ne_zero (vid : Nat) (e : Edge) : contribM vid e ≠ 0 := by
  have := ZERO_EPSILON_pos
  unfold contribM
  split
  · rename_i h
    have : ZERO_EPSILON < 1 - e.survey := h.2.2.2
    intro hc
    rw [hc] at this
    linarith
  · norm_num

-- ============================================================
-- The in-place subproduct patch (Solver.cpp lines 261-312)
-- ============================================================

/-- The four-case in-place patch of the variable cache performed by
`updateSurveys` after computing `newSurvey` for edge `e`
(Solver.cpp:261-312).  `e.survey` is still the old survey here. -/
def patchCache (e : Edge) (newSurvey : ℚ) (v : Variable) : Variable :=
  if e.type = true then
    if 1 - e.survey > ZERO_EPSILON then
      if 1 - newSurvey > ZERO_EPSILON then
        { v with p := v.p * ((1 - newSurvey) / (1 - e.survey)) }
      else { v with p := v.p / (1 - e.survey), pzero := v.pzero + 1 }
    else
      if 1 - newSurvey > ZERO_EPSILON then
        { v with p := v.p * (1 - newSurvey), pzero := v.pzero - 1 }
      else v
  else
    if 1 - e.survey > ZERO_EPSILON then
      if 1 - newSurvey > ZERO_EPSILON then
        { v with m := v.m * ((1 - newSurvey) / (1 - e.survey)) }
      else { v with m := v.m / (1 - e.survey), mzero := v.mzero + 1 }
    else
      if 1 - newSurvey > ZERO_EPSILON then
        { v with m := v.m * (1 - newSurvey), mzero := v.mzero - 1 }
      else v

theorem patchCache_assigned (e : Edge) (new : ℚ) (v : Variable) :
    (patchCache e new v).assigned = v.assigned ∧
    (patchCache e new v).value = v.value := by
  unfold patchCache
  repeat' split
  all_goals simp

/-- The edge with its survey replaced; phase 2 stores the new survey this
way (Solver.cpp:321). -/
def withSurvey (e : Edge) (s : ℚ) : Edge := { e with survey := s }

theorem withSurvey_survey (e : Edge) (s : ℚ) : (withSurvey e s).survey = s := rfl

theorem withSurvey_varId (e : Edge) (s : ℚ) : (withSurvey e s).varId = e.varId := rfl

theorem withSurvey_clauseId (e : Edge) (s : ℚ) :
    (withSurvey e s).clauseId = e.clauseId := rfl

theorem withSurvey_type (e : Edge) (s : ℚ) : (withSurvey e s).type = e.type := rfl

theorem withSurvey_enabled (e : Edge) (s : ℚ) :
    (withSurvey e s).enabled = e.enabled := rfl

theorem contribP_eq_factor (vid : Nat) {e : Edge} (h1 : e.varId = vid)
    (h2 : e.enabled = true) (h3 : e.type = true)
    (h4 : 1 - e.survey > ZERO_EPSILON) : contribP vid e = 1 - e.survey := by
  unfold contribP; exact if_pos ⟨h1, h2, h3, h4⟩

theorem contribP_eq_one_sat {vid : Nat} {e : Edge}
    (h4 : ¬(1 - e.survey > ZERO_EPSILON)) : contribP vid e = 1 := by
  unfold contribP; exact if_neg (fun hc => h4 hc.2.2.2)

theorem contribP_eq_one_neg {vid : Nat} {e : Edge} (h3 : e.type ≠ true) :
    contribP vid e = 1 := by
  unfold contribP; exact if_neg (fun hc => h3 hc.2.2.1)

theorem contribP_eq_one_var {vid : Nat} {e : Edge} (h1 : e.varId ≠ vid) :
    contribP vid e = 1 := by
  unfold contribP; exact if_neg (fun hc => h1 hc.1)

theorem contribM_eq_factor (vid : Nat) {e : Edge} (h1 : e.varId = vid)
    (h2 : e.enabled = true) (h3 : e.type = false)
    (h4 : 1 - e.survey > ZERO_EPSILON) : contribM vid e = 1 - e.survey := by
  unfold contribM; exact if_pos ⟨h1, h2, h3, h4⟩

theorem contribM_eq_one_sat {vid : Nat} {e : Edge}
    (h4 : ¬(1 - e.survey > ZERO_EPSILON)) : contribM vid e = 1 := by
  unfold contribM; exact if_neg (fun hc => h4 hc.2.2.2)

theorem contribM_eq_one_pos {vid : Nat} {e : Edge} (h3 : e.type ≠ false) :
    contribM vid e = 1 := by
  unfold contribM; exact if_neg (fun hc => h3 hc.2.2.1)

theorem contribM_eq_one_var {vid : Nat} {e : Edge} (h1 : e.varId ≠ vid) :
    contribM vid e = 1 := by
  unfold contribM; exact if_neg (fun hc => h1 hc.1)

theorem zContribP_eq_one (vid : Nat) {e : Edge} (h1 : e.varId = vid)
    (h2 : e.enabled = true) (h3 : e.type = true)
    (h4 : ¬(1 - e.survey > ZERO_EPSILON)) : zContribP vid e = 1 := by
  unfold zContribP; exact if_pos ⟨h1, h2, h3, h4⟩

theorem zContribP_eq_zero_nonsat {vid : Nat} {e : Edge}
    (h4 : 1 - e.survey > ZERO_EPSILON) : zContribP vid e = 0 := by
  unfold zContribP; exact if_neg (fun hc => hc.2.2.2 h4)

theorem zContribP_eq_zero_neg {vid : Nat} {e : Edge} (h3 : e.type ≠ true) :
    zContribP vid e = 0 := by
  unfold zContribP; exact if_neg (fun hc => h3 hc.2.2.1)

theorem zContribP_eq_zero_var {vid : Nat} {e : Edge} (h1 : e.varId ≠ vid) :
    zContribP vid e = 0 := by
  unfold zContribP; exact if_neg (fun hc => h1 hc.1)

theorem zContribM_eq_one (vid : Nat) {e : Edge} (h1 : e.varId = vid)
    (h2 : e.enabled = true) (h3 : e.type = false)
    (h4 : ¬(1 - e.survey > ZERO_EPSILON)) : zContribM vid e = 1 := by
  unfold zContribM; exact if_pos ⟨h1, h2, h3, h4⟩

theorem zContribM_eq_zero_nonsat {vid : Nat} {e : Edge}
    (h4 : 1 - e.survey > ZERO_EPSILON) : zContribM vid e = 0 := by
  unfold zContribM; exact if_neg (fun hc => hc.2.2.2 h4)

theorem zContribM_eq_zero_pos {vid : Nat} {e : Edge} (h3 : e.type ≠ false) :
    zContribM vid e = 0 := by
  unfold zContribM; exact if_neg (fun hc => h3 hc.2.2.1)

theorem zContribM_eq_zero_var {vid : Nat} {e : Edge} (h1 : e.varId ≠ vid) :
    zContribM vid e = 0 := by
  unfold zContribM; exact if_neg (fun hc => h1 hc.1)

theorem patchCache_p (e : Edge) (new : ℚ) (v : Variable)
    (hen : e.enabled = true) :
    (patchCache e new v).p * contribP e.varId e =
      v.p * contribP e.varId (withSurvey e new) := by
  have hz := ZERO_EPSILON_pos
  unfold patchCache
  by_cases ht : e.type = true
  · rw [if_pos ht]
    by_cases hold : 1 - e.survey > ZERO_EPSILON
    · have hne : (1 : ℚ) - e.survey ≠ 0 := by
        intro hc; rw [hc] at hold; exact absurd hold (by linarith)
      rw [if_pos hold]
      by_cases hnew : 1 - new > ZERO_EPSILON
      · rw [if_pos hnew, contribP_eq_factor _ rfl hen ht hold,
          contribP_eq_factor e.varId (e := withSurvey e new) rfl hen ht hnew]
        dsimp only [withSurvey_survey]
        field_simp
        try ring
      · rw [if_neg hnew, contribP_eq_factor _ rfl hen ht hold,
          contribP_eq_one_sat (e := withSurvey e new) hnew]
        dsimp only [withSurvey_survey]
        field_simp
    · rw [if_neg hold]
      by_cases hnew : 1 - new > ZERO_EPSILON
      · rw [if_pos hnew, contribP_eq_one_sat hold,
          contribP_eq_factor e.varId (e := withSurvey e new) rfl hen ht hnew]
        dsimp only [withSurvey_survey]
        ring
      · rw [if_neg hnew, contribP_eq_one_sat hold,
          contribP_eq_one_sat (e := withSurvey e new) hnew]
  · rw [if_neg ht,
      contribP_eq_one_neg ht, contribP_eq_one_neg (e := withSurvey e new) ht]
    by_cases hold : 1 - e.survey > ZERO_EPSILON
    · rw [if_pos hold]
      by_cases hnew : 1 - new > ZERO_EPSILON
      · rw [if_pos hnew]
      · rw [if_neg hnew]
    · rw [if_neg hold]
      by_cases hnew : 1 - new > ZERO_EPSILON
      · rw [if_pos hnew]
      · rw [if_neg hnew]

theorem patchCache_m (e : Edge) (new : ℚ) (v : Variable)
    (hen : e.enabled = true) :
    (patchCache e new v).m * contribM e.varId e =
      v.m * contribM e.varId (withSurvey e new) := by
  have hz := ZERO_EPSILON_pos
  unfold patchCache
  by_cases ht : e.type = true
  · have ht1 : e.type ≠ false := by rw [ht]; exact fun h => Bool.noConfusion h
    rw [if_pos ht, contribM_eq_one_pos ht1,
      contribM_eq_one_pos (e := withSurvey e new) ht1]
    by_cases hold : 1 - e.survey > ZERO_EPSILON
    · rw [if_pos hold]
      by_cases hnew : 1 - new > ZERO_EPSILON
      · rw [if_pos hnew]
      · rw [if_neg hnew]
    · rw [if_neg hold]
      by_cases hnew : 1 - new > ZERO_EPSILON
      · rw [if_pos hnew]
      · rw [if_neg hnew]
  · have ht' : e.type = false := by
      cases h : e.type
      · rfl
      · exact absurd h ht
    rw [if_neg ht]
    by_cases hold : 1 - e.survey > ZERO_EPSILON
    · have hne : (1 : ℚ) - e.survey ≠ 0 := by
        intro hc; rw [hc] at hold; exact absurd hold (by linarith)
      rw [if_pos hold]
      by_cases hnew : 1 - new > ZERO_EPSILON
      · rw [if_pos hnew, contribM_eq_factor _ rfl hen ht' hold,
          contribM_eq_factor e.varId (e := withSurvey e new) rfl hen ht' hnew]
        dsimp only [withSurvey_survey]
        field_simp
        try ring
      · rw [if_neg hnew, contribM_eq_factor _ rfl hen ht' hold,
          contribM_eq_one_sat (e := withSurvey e new) hnew]
        dsimp only [withSurvey_survey]
        field_simp
    · rw [if_neg hold]
      by_cases hnew : 1 - new > ZERO_EPSILON
      · rw [if_pos hnew, contribM_eq_one_sat hold,
          contribM_eq_factor e.varId (e := withSurvey e new) rfl hen ht' hnew]
        dsimp only [withSurvey_survey]
        ring
      · rw [if_neg hnew, contribM_eq_one_sat hold,
          contribM_eq_one_sat (e := withSurvey e new) hnew]

theorem patchCache_pzero (e : Edge) (new : ℚ) (v : Variable)
    (hen : e.enabled = true) (hge : zContribP e.varId e ≤ v.pzero) :
    (patchCache e new v).pzero + zContribP e.varId e =
      v.pzero + zContribP e.varId (withSurvey e new) := by
  unfold patchCache
  by_cases ht : e.type = true
  · rw [if_pos ht]
    by_cases hold : 1 - e.survey > ZERO_EPSILON
    · rw [if_pos hold, zContribP_eq_zero_nonsat hold]
      by_cases hnew : 1 - new > ZERO_EPSILON
      · rw [if_pos hnew, zContribP_eq_zero_nonsat (e := withSurvey e new) hnew]
      · rw [if_neg hnew, zContribP_eq_one e.varId (e := withSurvey e new) rfl hen ht hnew]
    · rw [if_neg hold]
      have hze : zContribP e.varId e = 1 := zContribP_eq_one _ rfl hen ht hold
      rw [hze] at hge
      rw [hze]
      by_cases hnew : 1 - new > ZERO_EPSILON
      · rw [if_pos hnew, zContribP_eq_zero_nonsat (e := withSurvey e new) hnew]
        dsimp only [withSurvey_survey]
        omega
      · rw [if_neg hnew, zContribP_eq_one e.varId (e := withSurvey e new) rfl hen ht hnew]
  · rw [if_neg ht, zContribP_eq_zero_neg ht,
      zContribP_eq_zero_neg (e := withSurvey e new) ht]
    by_cases hold : 1 - e.survey > ZERO_EPSILON
    · rw [if_pos hold]
      by_cases hnew : 1 - new > ZERO_EPSILON
      · rw [if_pos hnew]
      · rw [if_neg hnew]
    · rw [if_neg hold]
      by_cases hnew : 1 - new > ZERO_EPSILON
      · rw [if_pos hnew]
      · rw [if_neg hnew]

theorem patchCache_mzero (e : Edge) (new : ℚ) (v : Variable)
    (hen : e.enabled = true) (hge : zContribM e.varId e ≤ v.mzero) :
    (patchCache e new v).mzero + zContribM e.varId e =
      v.mzero + zContribM e.varId (withSurvey e new) := by
  unfold patchCache
  by_cases ht : e.type = true
  · have ht1 : e.type ≠ false := by rw [ht]; exact fun h => Bool.noConfusion h
    rw [if_pos ht, zContribM_eq_zero_pos ht1,
      zContribM_eq_zero_pos (e := withSurvey e new) ht1]
    by_cases hold : 1 - e.survey > ZERO_EPSILON
    · rw [if_pos hold]
      by_cases hnew : 1 - new > ZERO_EPSILON
      · rw [if_pos hnew]
      · rw [if_neg hnew]
    · rw [if_neg hold]
      by_cases hnew : 1 - new > ZERO_EPSILON
      · rw [if_pos hnew]
      · rw [if_neg hnew]
  · have ht' : e.type = false := by
      cases h : e.type
      · rfl
      · exact absurd h ht
    rw [if_neg ht]
    by_cases hold : 1 - e.survey > ZERO_EPSILON
    · rw [if_pos hold, zContribM_eq_zero_nonsat hold]
      by_cases hnew : 1 - new > ZERO_EPSILON
      · rw [if_pos hnew, zContribM_eq_zero_nonsat (e := withSurvey e new) hnew]
      · rw [if_neg hnew, zContribM_eq_one e.varId (e := withSurvey e new) rfl hen ht' hnew]
    · rw [if_neg hold]
      have hze : zContribM e.varId e = 1 := zContribM_eq_one _ rfl hen ht' hold
      rw [hze] at hge
      rw [hze]
      by_cases hnew : 1 - new > ZERO_EPSILON
      · rw [if_pos hnew, zContribM_eq_zero_nonsat (e := withSurvey e new) hnew]
        dsimp only [withSurvey_survey]
        omega
      · rw [if_neg hnew, zContribM_eq_one e.varId (e := withSurvey e new) rfl hen ht' hnew]

-- ============================================================
-- The survey update for one clause (Solver.cpp lines 188-327)
-- ============================================================

/-- The new survey of the i-th enabled edge of the clause, from the phase-1
data (Solver.cpp:250-259). -/
def newSurveyFor (zeros : Nat) (allS : ℚ) (subS : List ℚ) (i : Nat) : ℚ :=
  if zeros = 0 then allS / subS.getD i 0
  else if zeros = 1 ∧ subS.getD i 0 < ZERO_EPSILON then allS
  else 0

/-- The graph change for one enabled edge in phase 2: patch the incident
variable's cache from the old and new survey (Solver.cpp:261-312), then
store the new survey on the edge (Solver.cpp:321). -/
def applyEdgeUpdate (g : FactorGraph) (k : Nat) (new : ℚ) : FactorGraph :=
  setEdgeSurvey
    (modifyVar g (getEdge g k).varId (patchCache (getEdge g k) new)) k new

/-- Phase 1 of `updateSurveys` (Solver.cpp:197-239): collect each enabled
edge's subsurvey, count the (near-)zeros, multiply the others. -/
def phase1Step (g : FactorGraph) (st : Nat × ℚ × List ℚ) (k : Nat) :
    Nat × ℚ × List ℚ :=
  if (getEdge g k).enabled = true then
    let s := edgeSubSurvey (getVar g (getEdge g k).varId) (getEdge g k)
    if s < ZERO_EPSILON then (st.1 + 1, st.2.1, st.2.2 ++ [s])
    else (st.1, st.2.1 * s, st.2.2 ++ [s])
  else st

/-- Phase 2 of `updateSurveys` (Solver.cpp:244-324): for each enabled edge,
compute the new survey, patch the cache, store the survey, advance the
enabled-edge counter `i` and track the maximal |Δsurvey|. -/
def phase2Step (zeros : Nat) (allS : ℚ) (subS : List ℚ)
    (st : FactorGraph × Nat × ℚ) (k : Nat) : FactorGraph × Nat × ℚ :=
  if (getEdge st.1 k).enabled = true then
    (applyEdgeUpdate st.1 k (newSurveyFor zeros allS subS st.2.1),
     st.2.1 + 1,
     max st.2.2 |(getEdge st.1 k).survey - newSurveyFor zeros allS subS st.2.1|)
  else st

/-- `updateSurveys` (Solver.cpp:188-327): both phases over the clause's
incident edges, returning the updated graph and the clause's contribution
to the convergence delta. -/
def updateSurveys (g : FactorGraph) (cid : Nat) : FactorGraph × ℚ :=
  let idxs := clauseEdgeIdxs g cid
  let ph1 := idxs.foldl (phase1Step g) (0, 1, [])
  let fin := idxs.foldl (phase2Step ph1.1 ph1.2.1 ph1.2.2) (g, 0, 0)
  (fin.1, fin.2.2)

theorem applyEdgeUpdate_vars (g : FactorGraph) (k : Nat) (new : ℚ) :
    (applyEdgeUpdate g k new).vars =
      g.vars.set (getEdge g k).varId
        (patchCache (getEdge g k) new (getVar g (getEdge g k).varId)) := rfl

theorem applyEdgeUpdate_edges (g : FactorGraph) (k : Nat) (new : ℚ) :
    (applyEdgeUpdate g k new).edges =
      g.edges.set k (withSurvey (getEdge g k) new) := rfl

theorem applyEdgeUpdate_edges_len (g : FactorGraph) (k : Nat) (new : ℚ) :
    (applyEdgeUpdate g k new).edges.length = g.edges.length := by
  rw [applyEdgeUpdate_edges, List.length_set]

theorem cacheConsistent_iff (g : FactorGraph) (vid : Nat) :
    cacheConsistent g vid ↔
      ((getVar g vid).p = prodP vid g.edges ∧
       (getVar g vid).m = prodM vid g.edges ∧
       (getVar g vid).pzero = sumZP vid g.edges ∧
       (getVar g vid).mzero = sumZM vid g.edges) := by
  unfold cacheConsistent
  rw [subProductsOf_eq]

theorem prodP_set (vid : Nat) (l : List Edge) (k : Nat) (e' : Edge)
    (hk : k < l.length) :
    prodP vid (l.set k e') * contribP vid (l.getD k defaultEdge) =
      prodP vid l * contribP vid e' :=
  prod_contrib_set (contribP vid) l k e' hk

theorem prodM_set (vid : Nat) (l : List Edge) (k : Nat) (e' : Edge)
    (hk : k < l.length) :
    prodM vid (l.set k e') * contribM vid (l.getD k defaultEdge) =
      prodM vid l * contribM vid e' :=
  prod_contrib_set (contribM vid) l k e' hk

theorem sumZP_set (vid : Nat) (l : List Edge) (k : Nat) (e' : Edge)
    (hk : k < l.length) :
    sumZP vid (l.set k e') + zContribP vid (l.getD k defaultEdge) =
      sumZP vid l + zContribP vid e' :=
  sum_contrib_set (zContribP vid) l k e' hk

theorem sumZM_set (vid : Nat) (l : List Edge) (k : Nat) (e' : Edge)
    (hk : k < l.length) :
    sumZM vid (l.set k e') + zContribM vid (l.getD k defaultEdge) =
      sumZM vid l + zContribM vid e' :=
  sum_contrib_set (zContribM vid) l k e' hk

/-- Core of claim C3: one in-place edge update together with its cache patch
preserves invariant I1, for any value of the new survey. -/
theorem applyEdgeUpdate_I1 (g : FactorGraph) (k : Nat) (new : ℚ)
    (hk : k < g.edges.length) (hen : (getEdge g k).enabled = true)
    (h : I1 g) : I1 (applyEdgeUpdate g k new) := by
  intro vid hvid hass
  have hlen : (applyEdgeUpdate g k new).vars.length = g.vars.length := by
    rw [applyEdgeUpdate_vars, List.length_set]
  have hvid' : vid < g.vars.length := by rw [hlen] at hvid; exact hvid
  have hgetD : g.edges.getD k defaultEdge = getEdge g k := rfl
  have hgv : getVar (applyEdgeUpdate g k new) vid =
      if (getEdge g k).varId = vid ∧ (getEdge g k).varId < g.vars.length then
        patchCache (getEdge g k) new (getVar g (getEdge g k).varId)
      else getVar g vid := by
    unfold getVar
    rw [applyEdgeUpdate_vars, getD_set]
    rfl
  rw [cacheConsistent_iff, hgv, applyEdgeUpdate_edges]
  rw [hgv] at hass
  by_cases hcase :
      (getEdge g k).varId = vid ∧ (getEdge g k).varId < g.vars.length
  · -- the patched variable
    rw [if_pos hcase] at hass ⊢
    obtain ⟨hveq, hvlt⟩ := hcase
    subst hveq
    have hassg : (getVar g (getEdge g k).varId).assigned = false := by
      rw [(patchCache_assigned (getEdge g k) new
        (getVar g (getEdge g k).varId)).1] at hass
      exact hass
    have hv := h (getEdge g k).varId hvid' hassg
    rw [cacheConsistent_iff] at hv
    obtain ⟨hvp, hvm, hvpz, hvmz⟩ := hv
    refine ⟨?_, ?_, ?_, ?_⟩
    · have exch := prodP_set (getEdge g k).varId g.edges k
        (withSurvey (getEdge g k) new) hk
      rw [hgetD] at exch
      have pl := patchCache_p (getEdge g k) new
        (getVar g (getEdge g k).varId) hen
      have hnz := contribP_ne_zero (getEdge g k).varId (getEdge g k)
      apply mul_right_cancel₀ hnz
      rw [pl, exch, hvp]
    · have exch := prodM_set (getEdge g k).varId g.edges k
        (withSurvey (getEdge g k) new) hk
      rw [hgetD] at exch
      have pl := patchCache_m (getEdge g k) new
        (getVar g (getEdge g k).varId) hen
      have hnz := contribM_ne_zero (getEdge g k).varId (getEdge g k)
      apply mul_right_cancel₀ hnz
      rw [pl, exch, hvm]
    · have exch := sumZP_set (getEdge g k).varId g.edges k
        (withSurvey (getEdge g k) new) hk
      rw [hgetD] at exch
      have hgeb := zContrib_le_sum (zContribP (getEdge g k).varId) g.edges k hk
      rw [hgetD] at hgeb
      have hge : zContribP (getEdge g k).varId (getEdge g k) ≤
          (getVar g (getEdge g k).varId).pzero := by
        rw [hvpz]
        exact hgeb
      have pl := patchCache_pzero (getEdge g k) new
        (getVar g (getEdge g k).varId) hen hge
      omega
    · have exch := sumZM_set (getEdge g k).varId g.edges k
        (withSurvey (getEdge g k) new) hk
      rw [hgetD] at exch
      have hgeb := zContrib_le_sum (zContribM (getEdge g k).varId) g.edges k hk
      rw [hgetD] at hgeb
      have hge : zContribM (getEdge g k).varId (getEdge g k) ≤
          (getVar g (getEdge g k).varId).mzero := by
        rw [hvmz]
        exact hgeb
      have pl := patchCache_mzero (getEdge g k) new
        (getVar g (getEdge g k).varId) hen hge
      omega
  · -- an untouched variable
    have hne : (getEdge g k).varId ≠ vid := by
      intro hh
      exact hcase ⟨hh, by rw [hh]; exact hvid'⟩
    rw [if_neg hcase] at hass ⊢
    have hv := h vid hvid' hass
    rw [cacheConsistent_iff] at hv
    obtain ⟨hvp, hvm, hvpz, hvmz⟩ := hv
    have exchP := prodP_set vid g.edges k (withSurvey (getEdge g k) new) hk
    have exchM := prodM_set vid g.edges k (withSurvey (getEdge g k) new) hk
    have exchZP := sumZP_set vid g.edges k (withSurvey (getEdge g k) new) hk
    have exchZM := sumZM_set vid g.edges k (withSurvey (getEdge g k) new) hk
    rw [hgetD, contribP_eq_one_var hne,
      contribP_eq_one_var (e := withSurvey (getEdge g k) new) hne,
      mul_one, mul_one] at exchP
    rw [hgetD, contribM_eq_one_var hne,
      contribM_eq_one_var (e := withSurvey (getEdge g k) new) hne,
      mul_one, mul_one] at exchM
    rw [hgetD, zContribP_eq_zero_var hne,
      zContribP_eq_zero_var (e := withSurvey (getEdge g k) new) hne,
      Nat.add_zero, Nat.add_zero] at exchZP
    rw [hgetD, zContribM_eq_zero_var hne,
      zContribM_eq_zero_var (e := withSurvey (getEdge g k) new) hne,
      Nat.add_zero, Nat.add_zero] at exchZM
    exact ⟨hvp.trans exchP.symm, hvm.trans exchM.symm,
      hvpz.trans exchZP.symm, hvmz.trans exchZM.symm⟩

theorem phase2_fold_I1 (zeros : Nat) (allS : ℚ) (subS : List ℚ) :
    ∀ (l : List Nat) (st : FactorGraph × Nat × ℚ),
      I1 st.1 → (∀ k ∈ l, k < st.1.edges.length) →
      I1 (l.foldl (phase2Step zeros allS subS) st).1 := by
  intro l
  induction l with
  | nil => intro st h _; exact h
  | cons k ks ih =>
    intro st h hb
    simp only [List.foldl_cons]
    by_cases hen : (getEdge st.1 k).enabled = true
    · have hk : k < st.1.edges.length := hb k (List.mem_cons_self k ks)
      have step : phase2Step zeros allS subS st k =
          (applyEdgeUpdate st.1 k (newSurveyFor zeros allS subS st.2.1),
           st.2.1 + 1,
           max st.2.2
             |(getEdge st.1 k).survey - newSurveyFor zeros allS subS st.2.1|) := by
        unfold phase2Step
        rw [if_pos hen]
      rw [step]
      apply ih
      · exact applyEdgeUpdate_I1 st.1 k _ hk hen h
      · intro k' hk'
        have hlen := applyEdgeUpdate_edges_len st.1 k
          (newSurveyFor zeros allS subS st.2.1)
        dsimp only [withSurvey_survey]
        rw [hlen]
        exact hb k' (List.mem_cons_of_mem _ hk')
    · have step : phase2Step zeros allS subS st k = st := by
        unfold phase2Step
        rw [if_neg hen]
      rw [step]
      exact ih st h (fun k' hk' => hb k' (List.mem_cons_of_mem _ hk'))

/-- C3: after `updateSurveys` on a clause, invariant I1 still holds for
every unassigned variable: the four-case in-place subproduct patch leaves
the cache equal to a from-scratch recomputation (`computeSubProducts`). -/
theorem c3_updateSurveys_preserves_I1 (g : FactorGraph) (cid : Nat)
    (hc : (getClause g cid).enabled = true) (h : I1 g) :
    I1 (updateSurveys g cid).1 := by
  apply phase2_fold_I1
  · exact h
  · intro k hk
    unfold clauseEdgeIdxs at hk
    have := List.mem_filter.mp hk
    exact List.mem_range.mp this.1

/-- A one-clause graph whose variable cache satisfies I1. -/
def gC3w : FactorGraph :=
  { vars := [⟨false, false, 1 / 2, 1, 0, 0, 0, 0, 0, 0⟩],
    clauses := [⟨true⟩],
    edges := [⟨0, 0, true, true, 1 / 2⟩] }

theorem c3_witness : I1 gC3w ∧ (getClause gC3w 0).enabled = true ∧
    I1 (updateSurveys gC3w 0).1 :=
  ⟨of_decide_eq_true (by with_unfolding_all rfl),
   of_decide_eq_true (by with_unfolding_all rfl),
   c3_updateSurveys_preserves_I1 gC3w 0
     (of_decide_eq_true (by with_unfolding_all rfl))
     (of_decide_eq_true (by with_unfolding_all rfl))⟩

-- ============================================================
-- The SP driver (Solver.cpp lines 113-149)
-- ============================================================

/-- One sweep over the already-shuffled enabled clauses, threading the
graph and the running `maxConvergeDiff` (Solver.cpp:125-131). -/
def sweepOnce (g : FactorGraph) (order : List Nat) (acc : ℚ) :
    FactorGraph × ℚ :=
  order.foldl
    (fun st cid =>
      ((updateSurveys st.1 cid).1, max st.2 (updateSurveys st.1 cid).2))
    (g, acc)

/-- The iteration of `Solver::surveyPropagation` (Solver.cpp:119-148).
`acc` is `maxConvergeDiff`, declared OUTSIDE the sweep loop
(Solver.cpp:114) and therefore never reset between sweeps.  The clause
order of each sweep comes from `std::shuffle` on the solver RNG, modelled
here by the `shuffle` parameter (one permutation per sweep index). -/
def spLoop (shuffle : Nat → List Nat → List Nat) :
    Nat → FactorGraph → ℚ → AlgorithmResult × FactorGraph
  | 0, g, _ => (AlgorithmResult.UNCONVERGE, g)
  | fuel + 1, g, acc =>
    if (sweepOnce g (shuffle fuel (enabledClauseIds g)) acc).2 ≤ spEpsilon then
      if (sweepOnce g (shuffle fuel (enabledClauseIds g)) acc).2 <
          ZERO_EPSILON then
        (AlgorithmResult.WALKSAT,
         (sweepOnce g (shuffle fuel (enabledClauseIds g)) acc).1)
      else
        (AlgorithmResult.CONVERGE,
         (sweepOnce g (shuffle fuel (enabledClauseIds g)) acc).1)
    else
      spLoop shuffle fuel (sweepOnce g (shuffle fuel (enabledClauseIds g)) acc).1
        (sweepOnce g (shuffle fuel (enabledClauseIds g)) acc).2

/-- `Solver::surveyPropagation` (Solver.cpp:113-149): recompute the
subproducts from scratch, then sweep up to `spMaxIt` times. -/
def surveyPropagation (shuffle : Nat → List Nat → List Nat) (spMaxIt : Nat)
    (g : FactorGraph) : AlgorithmResult × FactorGraph :=
  spLoop shuffle spMaxIt (computeSubProducts g) 0

/-- The per-sweep maxima of |Δsurvey|, each computed from 0: the trace of
the Gauss-Seidel iteration, independent of the driver's stopping rule. -/
def sweepTrace (shuffle : Nat → List Nat → List Nat) :
    Nat → FactorGraph → List ℚ
  | 0, _ => []
  | fuel + 1, g =>
    (sweepOnce g (shuffle fuel (enabledClauseIds g)) 0).2 ::
      sweepTrace shuffle fuel
        (sweepOnce g (shuffle fuel (enabledClauseIds g)) 0).1

/-- Running maxima of a list of per-sweep deltas, starting from `acc`. -/
def cumMaxes (acc : ℚ) : List ℚ → List ℚ
  | [] => []
  | d :: ds => max acc d :: cumMaxes (max acc d) ds

/-- The outcome determined by the cumulative maxima: the first entry that
is ≤ `spEpsilon` decides WALKSAT (below `ZERO_EPSILON`) or CONVERGE;
otherwise the sweeps run out and the result is UNCONVERGE. -/
def spOutcome : List ℚ → AlgorithmResult
  | [] => AlgorithmResult.UNCONVERGE
  | c :: cs =>
    if c ≤ spEpsilon then
      if c < ZERO_EPSILON then AlgorithmResult.WALKSAT
      else AlgorithmResult.CONVERGE
    else spOutcome cs

def spOutcomeAux : ℚ → List ℚ → AlgorithmResult
  | _, [] => AlgorithmResult.UNCONVERGE
  | acc, d :: ds =>
    if max acc d ≤ spEpsilon then
      if max acc d < ZERO_EPSILON then AlgorithmResult.WALKSAT
      else AlgorithmResult.CONVERGE
    else spOutcomeAux (max acc d) ds

theorem phase2_fold_maxd_le (zeros : Nat) (allS : ℚ) (subS : List ℚ) :
    ∀ (l : List Nat) (st : FactorGraph × Nat × ℚ),
      st.2.2 ≤ (l.foldl (phase2Step zeros allS subS) st).2.2 := by
  intro l
  induction l with
  | nil => intro st; exact le_refl _
  | cons k ks ih =>
    intro st
    simp only [List.foldl_cons]
    refine le_trans ?_ (ih (phase2Step zeros allS subS st k))
    unfold phase2Step
    by_cases hen : (getEdge st.1 k).enabled = true
    · rw [if_pos hen]
      exact le_max_left _ _
    · rw [if_neg hen]

theorem updateSurveys_diff_nonneg (g : FactorGraph) (cid : Nat) :
    0 ≤ (updateSurveys g cid).2 := by
  have h := phase2_fold_maxd_le
    ((clauseEdgeIdxs g cid).foldl (phase1Step g) (0, 1, [])).1
    ((clauseEdgeIdxs g cid).foldl (phase1Step g) (0, 1, [])).2.1
    ((clauseEdgeIdxs g cid).foldl (phase1Step g) (0, 1, [])).2.2
    (clauseEdgeIdxs g cid) (g, 0, 0)
  exact h

theorem sweepOnce_nil (g : FactorGraph) (a : ℚ) :
    sweepOnce g [] a = (g, a) := rfl

theorem sweepOnce_cons (g : FactorGraph) (c : Nat) (cs : List Nat) (a : ℚ) :
    sweepOnce g (c :: cs) a =
      sweepOnce (updateSurveys g c).1 cs (max a (updateSurveys g c).2) := rfl

/-- Threading a different initial accumulator only shifts the final
accumulator by a `max`: the graph evolution is unaffected. -/
theorem sweepOnce_split :
    ∀ (order : List Nat) (g : FactorGraph) (a : ℚ), 0 ≤ a →
      sweepOnce g order a =
        ((sweepOnce g order 0).1, max a (sweepOnce g order 0).2) := by
  intro order
  induction order with
  | nil =>
    intro g a ha
    rw [sweepOnce_nil, sweepOnce_nil]
    dsimp only
    rw [max_eq_left ha]
  | cons c cs ih =>
    intro g a ha
    have hd : (0 : ℚ) ≤ (updateSurveys g c).2 := updateSurveys_diff_nonneg g c
    rw [sweepOnce_cons, sweepOnce_cons, max_eq_right hd,
      ih ((updateSurveys g c).1) (max a (updateSurveys g c).2)
        (le_trans ha (le_max_left a _)),
      ih ((updateSurveys g c).1) ((updateSurveys g c).2) hd]
    dsimp only
    rw [max_assoc]

theorem spOutcomeAux_eq_spOutcome :
    ∀ (ds : List ℚ) (acc : ℚ), spOutcomeAux acc ds = spOutcome (cumMaxes acc ds) := by
  intro ds
  induction ds with
  | nil => intro acc; rfl
  | cons d ds ih =>
    intro acc
    simp only [spOutcomeAux, cumMaxes, spOutcome, ih]

theorem sweepOnce_acc_le :
    ∀ (order : List Nat) (g : FactorGraph) (a : ℚ), a ≤ (sweepOnce g order a).2 := by
  intro order
  induction order with
  | nil => intro g a; exact le_refl a
  | cons c cs ih =>
    intro g a
    rw [sweepOnce_cons]
    exact le_trans (le_max_left a _) (ih _ _)

theorem spLoop_eq_outcomeAux (shuffle : Nat → List Nat → List Nat) :
    ∀ (fuel : Nat) (g : FactorGraph) (acc : ℚ), 0 ≤ acc →
      (spLoop shuffle fuel g acc).1 =
        spOutcomeAux acc (sweepTrace shuffle fuel g) := by
  intro fuel
  induction fuel with
  | zero => intro g acc _; rfl
  | succ fuel ih =>
    intro g acc ha
    have hd : (0 : ℚ) ≤
        (sweepOnce g (shuffle fuel (enabledClauseIds g)) 0).2 :=
      sweepOnce_acc_le (shuffle fuel (enabledClauseIds g)) g 0
    have hs := sweepOnce_split (shuffle fuel (enabledClauseIds g)) g acc ha
    simp only [spLoop, sweepTrace, spOutcomeAux]
    rw [hs]
    dsimp only
    by_cases h1 : max acc (sweepOnce g (shuffle fuel (enabledClauseIds g)) 0).2 ≤
        spEpsilon
    · rw [if_pos h1, if_pos h1]
      by_cases h2 : max acc (sweepOnce g (shuffle fuel (enabledClauseIds g)) 0).2 <
          ZERO_EPSILON
      · rw [if_pos h2, if_pos h2]
      · rw [if_neg h2, if_neg h2]
    · rw [if_neg h1, if_neg h1]
      exact ih _ _ (le_trans ha (le_max_left _ _))

/-- C1 (amended): the quantity the SP driver compares against `spEpsilon`
after each sweep is the maximum |Δsurvey| accumulated over ALL sweeps of
the call so far (`maxConvergeDiff` is never reset between sweeps); the
driver returns WALKSAT when that accumulated maximum is below
`ZERO_EPSILON` at a sweep's end — with no check of the surveys
themselves — returns CONVERGE when it is ≤ `spEpsilon` but not below
`ZERO_EPSILON`, and returns UNCONVERGE after `spMaxIt` sweeps if the
accumulated maximum never drops to ≤ `spEpsilon`. -/
theorem c1_driver_cumulative_max :
    ∀ (shuffle : Nat → List Nat → List Nat) (spMaxIt : Nat) (g : FactorGraph),
      (surveyPropagation shuffle spMaxIt g).1 =
        spOutcome (cumMaxes 0 (sweepTrace shuffle spMaxIt (computeSubProducts g))) := by
  intro shuffle spMaxIt g
  unfold surveyPropagation
  rw [spLoop_eq_outcomeAux shuffle spMaxIt (computeSubProducts g) 0 (le_refl 0),
    spOutcomeAux_eq_spOutcome]

/-- A single positive unit clause whose survey sits exactly at 1. -/
def gC1a : FactorGraph :=
  { vars := [⟨false, false, 1, 1, 0, 0, 0, 0, 0, 0⟩],
    clauses := [⟨true⟩],
    edges := [⟨0, 0, true, true, 1⟩] }

/-- The same unit clause with survey 1/2. -/
def gC1b : FactorGraph :=
  { vars := [⟨false, false, 1, 1, 0, 0, 0, 0, 0, 0⟩],
    clauses := [⟨true⟩],
    edges := [⟨0, 0, true, true, 1 / 2⟩] }

/-- C1 counterexample.  Run A: on `gC1a` the driver returns WALKSAT while
the edge survey is 1, refuting "returns the trivial/WalkSAT result only
when every edge survey is below ZERO_EPSILON".  Run B: on `gC1b` the first
sweep has delta 1/2 and every later sweep has per-sweep delta 0 ≤
spEpsilon, yet the driver returns UNCONVERGE after its 3 sweeps, refuting
both "the quantity compared is that sweep's maximum alone" and "returns
UNCONVERGED [only] after spMaxIt sweeps without the threshold being met".
(With a single clause every shuffle is the identity permutation.) -/
theorem c1_counterexample :
    (surveyPropagation (fun _ l => l) 5 gC1a).1 = AlgorithmResult.WALKSAT ∧
    ¬ ((getEdge (surveyPropagation (fun _ l => l) 5 gC1a).2 0).survey <
        ZERO_EPSILON) ∧
    (surveyPropagation (fun _ l => l) 3 gC1b).1 = AlgorithmResult.UNCONVERGE ∧
    sweepTrace (fun _ l => l) 3 (computeSubProducts gC1b) = [1 / 2, 0, 0] ∧
    (0 : ℚ) ≤ spEpsilon :=
  of_decide_eq_true (by with_unfolding_all rfl)

-- ============================================================
-- Bias evaluation (Solver.cpp lines 379-395)
-- ============================================================

/-- The `p` used by `evaluateVar`: `var->pzero ? 0 : var->p`. -/
def evalP (v : Variable) : ℚ := if v.pzero ≠ 0 then 0 else v.p

/-- The `m` used by `evaluateVar`: `var->mzero ? 0 : var->m`. -/
def evalM (v : Variable) : ℚ := if v.mzero ≠ 0 then 0 else v.m

/-- The pre-normalization sum `Hm + Hz + Hp` of `Solver::evaluateVar`
(Solver.cpp:388), with `Hz = p·m`, `Hp = m − Hz`, `Hm = p − Hz`. -/
def evalRawSum (v : Variable) : ℚ :=
  (evalP v - evalP v * evalM v) + evalP v * evalM v +
    (evalM v - evalP v * evalM v)

/-- `Solver::evaluateVar` (Solver.cpp:379-395): computes the raw biases,
divides each by their sum and stores `evalValue = |Hp − Hm|` of the
normalized biases. -/
def evaluateVar (v : Variable) : Variable :=
  { v with
    Hz := evalP v * evalM v / evalRawSum v,
    Hp := (evalM v - evalP v * evalM v) / evalRawSum v,
    Hm := (evalP v - evalP v * evalM v) / evalRawSum v,
    evalValue :=
      |(evalM v - evalP v * evalM v) / evalRawSum v -
        (evalP v - evalP v * evalM v) / evalRawSum v| }

/-- C9 (amended): with the bounds invariant I1 guarantees (`0 < p ≤ 1`,
`0 < m ≤ 1`) and provided not both saturation counts are positive, the
normalization denominator `S = Hp + Hm + Hz` is strictly positive, the
stored normalized biases sum exactly to 1 (hence within 1e-9), and
`evalValue = |Hp − Hm|`.  When `pzero > 0` and `mzero > 0` simultaneously
— possible for a variable with enabled edges, see the counterexample —
`S = 0` and the normalization divides by zero. -/
theorem c9_amended_bias_normalization (v : Variable)
    (hp0 : 0 < v.p) (hp1 : v.p ≤ 1) (hm0 : 0 < v.m) (hm1 : v.m ≤ 1)
    (hz : v.pzero = 0 ∨ v.mzero = 0) :
    0 < evalRawSum v ∧
    (evaluateVar v).Hp + (evaluateVar v).Hm + (evaluateVar v).Hz = 1 ∧
    (evaluateVar v).evalValue =
      |(evaluateVar v).Hp - (evaluateVar v).Hm| := by
  have hS : 0 < evalRawSum v := by
    unfold evalRawSum evalP evalM
    by_cases h1 : v.pzero ≠ 0
    · have h2 : v.mzero = 0 := by
        rcases hz with h | h
        · exact absurd h h1
        · exact h
      rw [if_pos h1, if_neg (by rw [h2]; exact fun hcon => hcon rfl)]
      ring_nf
      exact hm0
    · rw [if_neg h1]
      by_cases h2 : v.mzero ≠ 0
      · rw [if_pos h2]
        ring_nf
        exact hp0
      · rw [if_neg h2]
        nlinarith [mul_nonneg (le_of_lt hp0) (sub_nonneg.mpr hm1)]
  refine ⟨hS, ?_, rfl⟩
  have hne : evalRawSum v ≠ 0 := ne_of_gt hS
  show (evalM v - evalP v * evalM v) / evalRawSum v +
      (evalP v - evalP v * evalM v) / evalRawSum v +
      evalP v * evalM v / evalRawSum v = 1
  rw [div_add_div_same, div_add_div_same, div_eq_one_iff_eq hne]
  unfold evalRawSum
  ring

/-- A variable state for the witness: `p = m = 1/2`, no saturation. -/
def vC9w : Variable := ⟨false, false, 1 / 2, 1 / 2, 0, 0, 0, 0, 0, 0⟩

theorem c9_witness :
    0 < evalRawSum vC9w ∧
    (evaluateVar vC9w).Hp + (evaluateVar vC9w).Hm + (evaluateVar vC9w).Hz = 1 ∧
    (evaluateVar vC9w).evalValue =
      |(evaluateVar vC9w).Hp - (evaluateVar vC9w).Hm| :=
  c9_amended_bias_normalization vC9w
    (of_decide_eq_true (by with_unfolding_all rfl))
    (of_decide_eq_true (by with_unfolding_all rfl))
    (of_decide_eq_true (by with_unfolding_all rfl))
    (of_decide_eq_true (by with_unfolding_all rfl))
    (Or.inl rfl)

/-- A graph on one unassigned variable carrying one enabled saturated
positive edge and one enabled saturated negative edge; its cache satisfies
I1 (`p = m = 1`, `pzero = mzero = 1`). -/
def gC9 : FactorGraph :=
  { vars := [⟨false, false, 1, 1, 1, 1, 0, 0, 0, 0⟩],
    clauses := [⟨true⟩, ⟨true⟩],
    edges := [⟨0, 0, true, true, 1⟩, ⟨0, 1, false, true, 1⟩] }

/-- C9 counterexample: an unassigned variable with enabled edges, in a
state satisfying I1, for which the normalization denominator is 0 — the
claim says it is strictly positive — and the stored biases (division by
zero) do not sum to 1. -/
theorem c9_counterexample :
    I1 gC9 ∧
    (getVar gC9 0).assigned = false ∧
    (getEdge gC9 0).varId = 0 ∧ (getEdge gC9 0).enabled = true ∧
    evalRawSum (getVar gC9 0) = 0 ∧
    ¬ (0 < evalRawSum (getVar gC9 0)) ∧
    (evaluateVar (getVar gC9 0)).Hp + (evaluateVar (getVar gC9 0)).Hm +
      (evaluateVar (getVar gC9 0)).Hz ≠ 1 :=
  of_decide_eq_true (by with_unfolding_all rfl)

-- ============================================================
-- SID: survey initialization and the paramagnetic check
-- (Solver.cpp lines 24-68)
-- ============================================================

/-- Modelled from the spec: `getRandomReal01` returns the next uniform
[0,1) draw of the seeded RNG.  The stream of draws is abstracted as
`rng : Nat → ℚ`; the loop consumes one draw per edge, in edge order. -/
def initSurveysFrom (rng : Nat → ℚ) : Nat → List Edge → List Edge
  | _, [] => []
  | i, e :: es => withSurvey e (rng i) :: initSurveysFrom rng (i + 1) es

/-- The survey initialization at the start of `Solver::SID`
(Solver.cpp:31-33): every edge of `fg->edges`, enabled or not, has its
survey overwritten by the next draw. -/
def sidInitSurveys (rng : Nat → ℚ) (g : FactorGraph) : FactorGraph :=
  { g with edges := initSurveysFrom rng 0 g.edges }

theorem initSurveysFrom_getD (rng : Nat → ℚ) :
    ∀ (l : List Edge) (i j : Nat), j < l.length →
      (initSurveysFrom rng i l).getD j defaultEdge =
        withSurvey (l.getD j defaultEdge) (rng (i + j)) := by
  intro l
  induction l with
  | nil => intro i j h; simp at h
  | cons e es ih =>
    intro i j h
    cases j with
    | zero => simp [initSurveysFrom]
    | succ j' =>
      have h' : j' < es.length := by simpa using h
      simp only [initSurveysFrom, List.getD_cons_succ]
      rw [ih (i + 1) j' h']
      congr 2
      omega

/-- C10: at the start of every SID call, before the first SP run, every
edge (enabled or not) has its survey overwritten with the next RNG draw;
all other edge fields are untouched, and the previous survey does not
appear in the result. -/
theorem c10_surveys_reset (rng : Nat → ℚ) (g : FactorGraph) (i : Nat)
    (h : i < g.edges.length) :
    (getEdge (sidInitSurveys rng g) i).survey = rng i ∧
    (getEdge (sidInitSurveys rng g) i).enabled = (getEdge g i).enabled ∧
    (getEdge (sidInitSurveys rng g) i).type = (getEdge g i).type ∧
    (getEdge (sidInitSurveys rng g) i).varId = (getEdge g i).varId ∧
    (getEdge (sidInitSurveys rng g) i).clauseId = (getEdge g i).clauseId := by
  have key : getEdge (sidInitSurveys rng g) i =
      withSurvey (getEdge g i) (rng i) := by
    show (initSurveysFrom rng 0 g.edges).getD i defaultEdge = _
    rw [initSurveysFrom_getD rng g.edges 0 i h, Nat.zero_add]
    rfl
  rw [key]
  exact ⟨rfl, rfl, rfl, rfl, rfl⟩

theorem c10_witness :
    (getEdge (sidInitSurveys (fun _ => (3 : ℚ) / 10) gC1a) 0).survey = 3 / 10 ∧
    (getEdge (sidInitSurveys (fun _ => (3 : ℚ) / 10) gC1a) 0).enabled =
      (getEdge gC1a 0).enabled ∧
    (getEdge (sidInitSurveys (fun _ => (3 : ℚ) / 10) gC1a) 0).type =
      (getEdge gC1a 0).type ∧
    (getEdge (sidInitSurveys (fun _ => (3 : ℚ) / 10) gC1a) 0).varId =
      (getEdge gC1a 0).varId ∧
    (getEdge (sidInitSurveys (fun _ => (3 : ℚ) / 10) gC1a) 0).clauseId =
      (getEdge gC1a 0).clauseId :=
  c10_surveys_reset (fun _ => (3 : ℚ) / 10) gC1a 0
    (of_decide_eq_true (by with_unfolding_all rfl))

/-- The bias-evaluation loop of `Solver::SID` (Solver.cpp:50-56): for each
unassigned variable, `evaluateVar` stores its biases and the larger of
`Hp`, `Hm` is added to `sumMaxBias`. -/
def sidBiasLoop (g : FactorGraph) : FactorGraph × ℚ :=
  (List.range g.vars.length).foldl
    (fun st vid =>
      if (getVar st.1 vid).assigned = true then st
      else
        (modifyVar st.1 vid (fun w => evaluateVar w),
         st.2 +
           (if (evaluateVar (getVar st.1 vid)).Hp >
               (evaluateVar (getVar st.1 vid)).Hm then
             (evaluateVar (getVar st.1 vid)).Hp
           else (evaluateVar (getVar st.1 vid)).Hm)))
    (g, 0)

/-- Solver.cpp:47: the vector `unassignedVariables` is declared here and
never pushed into before it is read at lines 61, 67-69 and 80-88; its
embedding is therefore the empty list, whatever the graph holds. -/
def sidUnassignedVariables (g : FactorGraph) : List Nat :=
  let unassignedVariables : List Nat := []
  unassignedVariables

/-- Modelled from the spec: the number of currently unassigned variables,
the divisor and decimation base the claims refer to. -/
def specUnassignedCount (g : FactorGraph) : Nat :=
  (g.vars.filter (fun v => !v.assigned)).length

/-- `assignFraction` (Solver.cpp:67-68): the C++ `(int)` cast truncates
the nonnegative product toward zero, i.e. floors it; then at least 1. -/
def sidAssignFraction (g : FactorGraph) (fraction : ℚ) : Int :=
  if Int.floor (((sidUnassignedVariables g).length : ℚ) * fraction) < 1 then 1
  else Int.floor (((sidUnassignedVariables g).length : ℚ) * fraction)

/-- `Solver::SID` up to the paramagnetic check (Solver.cpp:24-61): draw
fresh surveys, run SP; when SP converges, run the bias loop and reach the
expression `sumMaxBias / unassignedVariables.size()`.  Returns the graph
at that point together with the numerator and the divisor of that
division. -/
def sidParamagneticProbeFull (shuffle : Nat → List Nat → List Nat)
    (spMaxIt : Nat) (rng : Nat → ℚ) (g : FactorGraph) :
    Option (FactorGraph × ℚ × Nat) :=
  if (surveyPropagation shuffle spMaxIt (sidInitSurveys rng g)).1 =
      AlgorithmResult.CONVERGE then
    some
      ((sidBiasLoop
          (surveyPropagation shuffle spMaxIt (sidInitSurveys rng g)).2).1,
       (sidBiasLoop
          (surveyPropagation shuffle spMaxIt (sidInitSurveys rng g)).2).2,
       (sidUnassignedVariables
          (sidBiasLoop
            (surveyPropagation shuffle spMaxIt (sidInitSurveys rng g)).2).1).length)
  else none

/-- One unassigned variable in a positive unit clause; SP converges on it
after one sweep when the surveys start at 199/200. -/
def gC8 : FactorGraph :=
  { vars := [⟨false, false, 1, 1, 0, 0, 0, 0, 0, 0⟩],
    clauses := [⟨true⟩],
    edges := [⟨0, 0, true, true, 0⟩] }

/-- C8: the division `sumMaxBias / unassignedVariables.size()`
(Solver.cpp:61) is reached with divisor 0: on `gC8` SP converges, the
numerator evaluates to 1, and the divisor — the size of the never-populated
vector — is 0 although one variable is unassigned.  The claim that the
divisor is nonzero whenever the mean is evaluated fails. -/
theorem c8_division_by_zero_reached :
    (sidParamagneticProbeFull (fun _ l => l) 5 (fun _ => 199 / 200) gC8).map
        (fun t => (t.2.1, t.2.2)) = some (1, 0) ∧
    (sidParamagneticProbeFull (fun _ l => l) 5 (fun _ => 199 / 200) gC8).map
        (fun t => specUnassignedCount t.1) = some 1 :=
  of_decide_eq_true (by with_unfolding_all rfl)

/-- Unit clause plus an isolated unassigned variable: two unassigned
variables at the paramagnetic check. -/
def gC45 : FactorGraph :=
  { vars := [⟨false, false, 1, 1, 0, 0, 0, 0, 0, 0⟩,
             ⟨false, false, 1, 1, 0, 0, 0, 0, 0, 0⟩],
    clauses := [⟨true⟩],
    edges := [⟨0, 0, true, true, 0⟩] }

/-- C5: the code computes `sumMaxBias / unassignedVariables.size()` with
`size() = 0` (the vector is never populated), not divided by the number of
unassigned variables, which is 2 here. -/
theorem c5_paramagnetic_divisor_zero :
    (sidParamagneticProbeFull (fun _ l => l) 5 (fun _ => 199 / 200) gC45).map
        (fun t => (t.2.1, t.2.2)) = some (1, 0) ∧
    (sidParamagneticProbeFull (fun _ l => l) 5 (fun _ => 199 / 200) gC45).map
        (fun t => specUnassignedCount t.1) = some 2 :=
  of_decide_eq_true (by with_unfolding_all rfl)

/-- C4: at the decimation step the list the code sorts and indexes is the
never-populated `unassignedVariables` vector: it is empty while two
variables are unassigned, `assignFraction` becomes `max(1, ⌊0·fraction⌋) = 1`,
and the read of `unassignedVariables[0]` is out of bounds (`get? 0 = none`). -/
theorem c4_decimation_list_empty :
    (sidParamagneticProbeFull (fun _ l => l) 5 (fun _ => 199 / 200) gC45).map
        (fun t => sidUnassignedVariables t.1) = some [] ∧
    (sidParamagneticProbeFull (fun _ l => l) 5 (fun _ => 199 / 200) gC45).map
        (fun t => specUnassignedCount t.1) = some 2 ∧
    (sidParamagneticProbeFull (fun _ l => l) 5 (fun _ => 199 / 200) gC45).map
        (fun t => sidAssignFraction t.1 (1 / 20)) = some 1 ∧
    (sidParamagneticProbeFull (fun _ l => l) 5 (fun _ => 199 / 200) gC45).map
        (fun t => (sidUnassignedVariables t.1).get? 0) = some none :=
  of_decide_eq_true (by with_unfolding_all rfl)

-- ============================================================
-- The simplifier (Solver.cpp lines 329-377)
-- ============================================================

theorem withDisabled_varId (e : Edge) : (withDisabled e).varId = e.varId := rfl

theorem withDisabled_clauseId (e : Edge) :
    (withDisabled e).clauseId = e.clauseId := rfl

theorem withDisabled_type (e : Edge) : (withDisabled e).type = e.type := rfl

theorem withDisabled_enabled (e : Edge) :
    (withDisabled e).enabled = false := rfl

/-- Call descriptor for the mutually recursive simplifier
(`assignVariable` / `cleanGraph` / `unitPropagation`). -/
inductive SimpCall where
  | assign (vid : Nat) (b : Bool)
  | clean (vid : Nat) (l : List Nat)
  | unit (cid : Nat)

/-- Fuel-indexed interpreter of the recursive simplifier
(Solver.cpp:329-377).  Every call consumes one unit of fuel; `none` means
the fuel ran out (the C++ recursion is bounded by the variable count, so a
large enough fuel always yields `some`).  `assign vid b` embeds
`Solver::assignVariable` (lines 329-339); `clean vid l` embeds the loop of
`Solver::cleanGraph` (lines 341-356) over the remaining incident edge
indices `l`; `unit cid` embeds `Solver::unitPropagation` (lines 358-377). -/
def simpRun : Nat → FactorGraph → SimpCall → Option (FactorGraph × Bool)
  | 0, _, _ => none
  | fuel + 1, g, SimpCall.assign vid b =>
    if (getVar g vid).assigned = true ∧ (getVar g vid).value ≠ b then
      some (g, false)
    else
      simpRun fuel (assignValueG g vid b)
        (SimpCall.clean vid (varEdgeIdxs (assignValueG g vid b) vid))
  | _ + 1, g, SimpCall.clean _ [] => some (g, true)
  | fuel + 1, g, SimpCall.clean vid (k :: ks) =>
    if (getEdge g k).enabled = true then
      if (getEdge g k).type = (getVar g vid).value then
        simpRun fuel (disableClause g (getEdge g k).clauseId)
          (SimpCall.clean vid ks)
      else
        match simpRun fuel (disableEdge g k)
            (SimpCall.unit (getEdge g k).clauseId) with
        | none => none
        | some (g2, false) => some (g2, false)
        | some (g2, true) => simpRun fuel g2 (SimpCall.clean vid ks)
    else simpRun fuel g (SimpCall.clean vid ks)
  | fuel + 1, g, SimpCall.unit cid =>
    if (clauseEnabledEdgeIdxs g cid).length = 0 then some (g, false)
    else if (clauseEnabledEdgeIdxs g cid).length = 1 then
      simpRun fuel g
        (SimpCall.assign
          (getEdge g ((clauseEnabledEdgeIdxs g cid).headD 0)).varId
          (getEdge g ((clauseEnabledEdgeIdxs g cid).headD 0)).type)
    else some (g, true)

/-- `Solver::assignVariable` under fuel. -/
def assignVariableF (fuel : Nat) (g : FactorGraph) (vid : Nat) (b : Bool) :
    Option (FactorGraph × Bool) :=
  simpRun fuel g (SimpCall.assign vid b)

/-- The `Solver::cleanGraph` loop under fuel. -/
def cleanLoopF (fuel : Nat) (g : FactorGraph) (vid : Nat) (l : List Nat) :
    Option (FactorGraph × Bool) :=
  simpRun fuel g (SimpCall.clean vid l)

/-- `Solver::unitPropagation` under fuel. -/
def unitPropagationF (fuel : Nat) (g : FactorGraph) (cid : Nat) :
    Option (FactorGraph × Bool) :=
  simpRun fuel g (SimpCall.unit cid)

theorem simpRun_assign (fuel : Nat) (g : FactorGraph) (vid : Nat) (b : Bool) :
    simpRun (fuel + 1) g (SimpCall.assign vid b) =
      if (getVar g vid).assigned = true ∧ (getVar g vid).value ≠ b then
        some (g, false)
      else
        simpRun fuel (assignValueG g vid b)
          (SimpCall.clean vid (varEdgeIdxs (assignValueG g vid b) vid)) := rfl

theorem simpRun_clean_nil (fuel : Nat) (g : FactorGraph) (vid : Nat) :
    simpRun (fuel + 1) g (SimpCall.clean vid []) = some (g, true) := rfl

theorem simpRun_clean_cons (fuel : Nat) (g : FactorGraph) (vid k : Nat)
    (ks : List Nat) :
    simpRun (fuel + 1) g (SimpCall.clean vid (k :: ks)) =
      if (getEdge g k).enabled = true then
        if (getEdge g k).type = (getVar g vid).value then
          simpRun fuel (disableClause g (getEdge g k).clauseId)
            (SimpCall.clean vid ks)
        else
          match simpRun fuel (disableEdge g k)
              (SimpCall.unit (getEdge g k).clauseId) with
          | none => none
          | some (g2, false) => some (g2, false)
          | some (g2, true) => simpRun fuel g2 (SimpCall.clean vid ks)
      else simpRun fuel g (SimpCall.clean vid ks) := rfl

theorem simpRun_unit (fuel : Nat) (g : FactorGraph) (cid : Nat) :
    simpRun (fuel + 1) g (SimpCall.unit cid) =
      if (clauseEnabledEdgeIdxs g cid).length = 0 then some (g, false)
      else if (clauseEnabledEdgeIdxs g cid).length = 1 then
        simpRun fuel g
          (SimpCall.assign
            (getEdge g ((clauseEnabledEdgeIdxs g cid).headD 0)).varId
            (getEdge g ((clauseEnabledEdgeIdxs g cid).headD 0)).type)
      else some (g, true) := rfl

theorem getVar_modifyVar (g : FactorGraph) (vid : Nat)
    (f : Variable → Variable) (w : Nat) :
    getVar (modifyVar g vid f) w =
      if vid = w ∧ vid < g.vars.length then f (getVar g vid)
      else getVar g w := by
  show (g.vars.set vid (f (getVar g vid))).getD w defaultVariable =
    if vid = w ∧ vid < g.vars.length then f (getVar g vid) else getVar g w
  rw [getD_set]
  rfl

theorem getClause_disableClause (g : FactorGraph) (cid c : Nat) :
    getClause (disableClause g cid) c =
      if cid = c ∧ cid < g.clauses.length then ⟨false⟩ else getClause g c := by
  show (g.clauses.set cid ⟨false⟩).getD c defaultClause =
    if cid = c ∧ cid < g.clauses.length then ⟨false⟩ else getClause g c
  rw [getD_set]
  rfl

theorem getEdge_disableEdge (g : FactorGraph) (k j : Nat) :
    getEdge (disableEdge g k) j =
      if k = j ∧ k < g.edges.length then withDisabled (getEdge g k)
      else getEdge g j := by
  show (g.edges.set k (withDisabled (getEdge g k))).getD j defaultEdge =
    if k = j ∧ k < g.edges.length then withDisabled (getEdge g k)
    else getEdge g j
  rw [getD_set]
  rfl

-- ============================================================
-- Monotone facts preserved by the simplifier
-- ============================================================

/-- What the simplifier never undoes: arena sizes and edge identities are
fixed, assignments and disabled flags only grow. -/
structure GraphMono (g g' : FactorGraph) : Prop where
  varsLen : g'.vars.length = g.vars.length
  clausesLen : g'.clauses.length = g.clauses.length
  edgesLen : g'.edges.length = g.edges.length
  edgeVar : ∀ k, (getEdge g' k).varId = (getEdge g k).varId
  edgeClause : ∀ k, (getEdge g' k).clauseId = (getEdge g k).clauseId
  edgeType : ∀ k, (getEdge g' k).type = (getEdge g k).type
  edgeEn : ∀ k, (getEdge g' k).enabled = true → (getEdge g k).enabled = true
  clauseDis : ∀ c, (getClause g c).enabled = false →
    (getClause g' c).enabled = false
  varKeep : ∀ w, (getVar g w).assigned = true →
    (getVar g' w).assigned = true ∧ (getVar g' w).value = (getVar g w).value

theorem graphMono_refl (g : FactorGraph) : GraphMono g g :=
  ⟨rfl, rfl, rfl, fun _ => rfl, fun _ => rfl, fun _ => rfl,
   fun _ h => h, fun _ h => h, fun _ h => ⟨h, rfl⟩⟩

theorem graphMono_trans {g1 g2 g3 : FactorGraph}
    (a : GraphMono g1 g2) (b : GraphMono g2 g3) : GraphMono g1 g3 :=
  ⟨b.varsLen.trans a.varsLen, b.clausesLen.trans a.clausesLen,
   b.edgesLen.trans a.edgesLen,
   fun k => (b.edgeVar k).trans (a.edgeVar k),
   fun k => (b.edgeClause k).trans (a.edgeClause k),
   fun k => (b.edgeType k).trans (a.edgeType k),
   fun k h => a.edgeEn k (b.edgeEn k h),
   fun c h => b.clauseDis c (a.clauseDis c h),
   fun w h =>
     ⟨(b.varKeep w (a.varKeep w h).1).1,
      ((b.varKeep w (a.varKeep w h).1).2).trans (a.varKeep w h).2⟩⟩

theorem mono_disableClause (g : FactorGraph) (cid : Nat) :
    GraphMono g (disableClause g cid) := by
  refine ⟨rfl, ?_, rfl, fun _ => rfl, fun _ => rfl, fun _ => rfl,
    fun _ h => h, ?_, fun w h => ⟨h, rfl⟩⟩
  · show (g.clauses.set cid ⟨false⟩).length = g.clauses.length
    exact List.length_set g.clauses cid _
  · intro c h
    rw [getClause_disableClause]
    by_cases hc : cid = c ∧ cid < g.clauses.length
    · rw [if_pos hc]
    · rw [if_neg hc]
      exact h

theorem mono_disableEdge (g : FactorGraph) (k : Nat) :
    GraphMono g (disableEdge g k) := by
  refine ⟨rfl, rfl, ?_, ?_, ?_, ?_, ?_, fun _ h => h, fun w h => ⟨h, rfl⟩⟩
  · show (g.edges.set k (withDisabled (getEdge g k))).length = g.edges.length
    exact List.length_set g.edges k _
  · intro j
    rw [getEdge_disableEdge]
    by_cases hc : k = j ∧ k < g.edges.length
    · rw [if_pos hc, withDisabled_varId, hc.1]
    · rw [if_neg hc]
  · intro j
    rw [getEdge_disableEdge]
    by_cases hc : k = j ∧ k < g.edges.length
    · rw [if_pos hc, withDisabled_clauseId, hc.1]
    · rw [if_neg hc]
  · intro j
    rw [getEdge_disableEdge]
    by_cases hc : k = j ∧ k < g.edges.length
    · rw [if_pos hc, withDisabled_type, hc.1]
    · rw [if_neg hc]
  · intro j h
    rw [getEdge_disableEdge] at h
    by_cases hc : k = j ∧ k < g.edges.length
    · rw [if_pos hc, withDisabled_enabled] at h
      exact Bool.noConfusion h
    · rw [if_neg hc] at h
      exact h

theorem mono_assignValueG (g : FactorGraph) (vid : Nat) (b : Bool)
    (hcond : (getVar g vid).assigned = true → (getVar g vid).value = b) :
    GraphMono g (assignValueG g vid b) := by
  refine ⟨?_, rfl, rfl, fun _ => rfl, fun _ => rfl, fun _ => rfl,
    fun _ h => h, fun _ h => h, ?_⟩
  · show (g.vars.set vid _).length = g.vars.length
    exact List.length_set g.vars vid _
  · intro w h
    rw [show assignValueG g vid b =
      modifyVar g vid (fun v => { v with assigned := true, value := b })
      from rfl, getVar_modifyVar]
    by_cases hc : vid = w ∧ vid < g.vars.length
    · rw [if_pos hc]
      refine ⟨rfl, ?_⟩
      show b = (getVar g w).value
      rw [← hc.1]
      exact (hcond (by rw [hc.1]; exact h)).symm
    · rw [if_neg hc]
      exact ⟨h, rfl⟩

/-- Well-formedness: every edge's clause id is in range. -/
def EdgesWF (g : FactorGraph) : Prop :=
  ∀ k, k < g.edges.length → (getEdge g k).clauseId < g.clauses.length

theorem mono_wf {g g' : FactorGraph} (m : GraphMono g g') (h : EdgesWF g) :
    EdgesWF g' := by
  intro k hk
  rw [m.edgeClause k, m.clausesLen]
  exact h k (by rw [← m.edgesLen]; exact hk)

/-- Every successful simplifier call only moves the graph monotonically:
nothing is re-enabled, no assignment is dropped or changed. -/
theorem simpRun_mono :
    ∀ (fuel : Nat) (g : FactorGraph) (call : SimpCall) (r : FactorGraph × Bool),
      simpRun fuel g call = some r → GraphMono g r.1 := by
  intro fuel
  induction fuel with
  | zero =>
    intro g call r h
    exact absurd h (by simp [simpRun])
  | succ fuel ih =>
    intro g call r h
    cases call with
    | assign vid b =>
      rw [simpRun_assign] at h
      by_cases hcon : (getVar g vid).assigned = true ∧ (getVar g vid).value ≠ b
      · rw [if_pos hcon] at h
        have hr := Option.some.inj h
        rw [← hr]
        exact graphMono_refl g
      · rw [if_neg hcon] at h
        push_neg at hcon
        exact graphMono_trans (mono_assignValueG g vid b hcon) (ih _ _ _ h)
    | clean vid l =>
      cases l with
      | nil =>
        rw [simpRun_clean_nil] at h
        have hr := Option.some.inj h
        rw [← hr]
        exact graphMono_refl g
      | cons k ks =>
        rw [simpRun_clean_cons] at h
        by_cases hen : (getEdge g k).enabled = true
        · rw [if_pos hen] at h
          by_cases htv : (getEdge g k).type = (getVar g vid).value
          · rw [if_pos htv] at h
            exact graphMono_trans (mono_disableClause g _) (ih _ _ _ h)
          · rw [if_neg htv] at h
            rcases hup : simpRun fuel (disableEdge g k)
                (SimpCall.unit (getEdge g k).clauseId) with _ | ⟨g2, bb⟩
            · rw [hup] at h
              exact absurd h (by simp)
            · rw [hup] at h
              cases bb with
              | false =>
                dsimp only at h
                have hr := Option.some.inj h
                rw [← hr]
                exact graphMono_trans (mono_disableEdge g k) (ih _ _ _ hup)
              | true =>
                dsimp only at h
                exact graphMono_trans
                  (graphMono_trans (mono_disableEdge g k) (ih _ _ _ hup))
                  (ih _ _ _ h)
        · rw [if_neg hen] at h
          exact ih _ _ _ h
    | unit cid =>
      rw [simpRun_unit] at h
      by_cases h0 : (clauseEnabledEdgeIdxs g cid).length = 0
      · rw [if_pos h0] at h
        have hr := Option.some.inj h
        rw [← hr]
        exact graphMono_refl g
      · rw [if_neg h0] at h
        by_cases h1 : (clauseEnabledEdgeIdxs g cid).length = 1
        · rw [if_pos h1] at h
          exact ih _ _ _ h
        · rw [if_neg h1] at h
          have hr := Option.some.inj h
          rw [← hr]
          exact graphMono_refl g



/-- If the `cleanGraph` loop of an assigned variable completes returning
true, every listed incident edge of the assignment polarity that is still
enabled at the end has its clause disabled. -/
theorem cleanLoop_disables :
    ∀ (fuel : Nat) (g : FactorGraph) (vid : Nat) (l : List Nat)
      (g' : FactorGraph),
      simpRun fuel g (SimpCall.clean vid l) = some (g', true) →
      (getVar g vid).assigned = true →
      EdgesWF g →
      (∀ k, k ∈ l → k < g.edges.length) →
      ∀ k, k ∈ l → (getEdge g k).varId = vid →
        (getEdge g k).type = (getVar g vid).value →
        (getEdge g' k).enabled = true →
        (getClause g' (getEdge g k).clauseId).enabled = false := by
  intro fuel
  induction fuel with
  | zero =>
    intro g vid l g' h
    exact absurd h (by simp [simpRun])
  | succ fuel ih =>
    intro g vid l g' h hass hwf hb k hk hkv hkt hken
    cases l with
    | nil => simp at hk
    | cons k0 ks =>
      rw [simpRun_clean_cons] at h
      by_cases hen : (getEdge g k0).enabled = true
      · rw [if_pos hen] at h
        by_cases htv : (getEdge g k0).type = (getVar g vid).value
        · rw [if_pos htv] at h
          have m1 := mono_disableClause g (getEdge g k0).clauseId
          have mrest := simpRun_mono fuel _ _ _ h
          rcases List.mem_cons.mp hk with hkk | hk2
          · subst hkk
            apply mrest.clauseDis
            rw [getClause_disableClause]
            rw [if_pos ⟨rfl, hwf k (hb k hk)⟩]
          · have hres := ih (disableClause g (getEdge g k0).clauseId) vid ks g'
              h hass (mono_wf m1 hwf)
              (fun j hj => hb j (List.mem_cons_of_mem _ hj))
              k hk2 hkv hkt hken
            exact hres
        · rw [if_neg htv] at h
          rcases hup : simpRun fuel (disableEdge g k0)
              (SimpCall.unit (getEdge g k0).clauseId) with _ | ⟨g2, bb⟩
          · rw [hup] at h
            exact absurd h (by simp)
          · rw [hup] at h
            cases bb with
            | false =>
              dsimp only at h
              have hinj := Option.some.inj h
              exact absurd (congrArg Prod.snd hinj) (by simp)
            | true =>
              dsimp only at h
              have m01 := mono_disableEdge g k0
              have m12 := simpRun_mono fuel _ _ _ hup
              have m02 := graphMono_trans m01 m12
              rcases List.mem_cons.mp hk with hkk | hk2
              · subst hkk
                exact absurd hkt htv
              · have hres := ih g2 vid ks g' h (m02.varKeep vid hass).1
                  (mono_wf m02 hwf)
                  (fun j hj => by
                    rw [m02.edgesLen]
                    exact hb j (List.mem_cons_of_mem _ hj))
                  k hk2
                  (by rw [m02.edgeVar k]; exact hkv)
                  (by rw [m02.edgeType k, (m02.varKeep vid hass).2]; exact hkt)
                  hken
                rw [m02.edgeClause k] at hres
                exact hres
      · rw [if_neg hen] at h
        have mrest := simpRun_mono fuel _ _ _ h
        rcases List.mem_cons.mp hk with hkk | hk2
        · subst hkk
          exact absurd (mrest.edgeEn k hken) hen
        · exact ih g vid ks g' h hass hwf
            (fun j hj => hb j (List.mem_cons_of_mem _ hj)) k hk2 hkv hkt hken

instance (g : FactorGraph) : Decidable (EdgesWF g) := by
  unfold EdgesWF
  infer_instance

/-- C6: the Simplifier contract.  (i) `unitPropagation` on a clause with no
enabled edges returns false, the graph unchanged (a derived contradiction);
(ii) on a clause with exactly one enabled edge it is the recursive
`assignVariable` of that edge's variable to the edge polarity; (iii) with
two or more enabled edges it returns true leaving the graph unchanged;
(iv) `assignVariable` on a variable already assigned the opposite value
returns false, the graph unchanged; (v) whenever `assignVariable` returns
true on a well-formed graph, the variable ends up assigned with value `b`
and every clause in which the literal `(v, b)` occurs on an enabled edge
has been disabled.  These are the only sources of `false`: (i) inside the
recursive unit propagation and (iv) at entry. -/
theorem c6_simplifier_contract :
    (∀ (fuel : Nat) (g : FactorGraph) (cid : Nat),
      (clauseEnabledEdgeIdxs g cid).length = 0 →
      unitPropagationF (fuel + 1) g cid = some (g, false)) ∧
    (∀ (fuel : Nat) (g : FactorGraph) (cid k : Nat),
      clauseEnabledEdgeIdxs g cid = [k] →
      unitPropagationF (fuel + 1) g cid =
        assignVariableF fuel g (getEdge g k).varId (getEdge g k).type) ∧
    (∀ (fuel : Nat) (g : FactorGraph) (cid : Nat),
      2 ≤ (clauseEnabledEdgeIdxs g cid).length →
      unitPropagationF (fuel + 1) g cid = some (g, true)) ∧
    (∀ (fuel : Nat) (g : FactorGraph) (vid : Nat) (b : Bool),
      (getVar g vid).assigned = true → (getVar g vid).value ≠ b →
      assignVariableF (fuel + 1) g vid b = some (g, false)) ∧
    (∀ (fuel : Nat) (g : FactorGraph) (vid : Nat) (b : Bool)
      (g' : FactorGraph),
      assignVariableF fuel g vid b = some (g', true) →
      vid < g.vars.length → EdgesWF g →
      (getVar g' vid).assigned = true ∧ (getVar g' vid).value = b ∧
      ∀ k, k < g'.edges.length → (getEdge g' k).varId = vid →
        (getEdge g' k).type = b → (getEdge g' k).enabled = true →
        (getClause g' (getEdge g' k).clauseId).enabled = false) := by
  refine ⟨?_, ?_, ?_, ?_, ?_⟩
  · intro fuel g cid h0
    show simpRun (fuel + 1) g (SimpCall.unit cid) = some (g, false)
    rw [simpRun_unit, if_pos h0]
  · intro fuel g cid k hl
    show simpRun (fuel + 1) g (SimpCall.unit cid) = _
    rw [simpRun_unit, hl]
    rfl
  · intro fuel g cid h2
    show simpRun (fuel + 1) g (SimpCall.unit cid) = some (g, true)
    rw [simpRun_unit, if_neg (by omega), if_neg (by omega)]
  · intro fuel g vid b ha hv
    show simpRun (fuel + 1) g (SimpCall.assign vid b) = some (g, false)
    rw [simpRun_assign, if_pos ⟨ha, hv⟩]
  · intro fuel g vid b g' h hvlt hwf
    cases fuel with
    | zero => exact absurd h (by simp [assignVariableF, simpRun])
    | succ fuel =>
      rw [show assignVariableF (fuel + 1) g vid b =
        simpRun (fuel + 1) g (SimpCall.assign vid b) from rfl,
        simpRun_assign] at h
      by_cases hcon :
          (getVar g vid).assigned = true ∧ (getVar g vid).value ≠ b
      · rw [if_pos hcon] at h
        have hinj := Option.some.inj h
        exact absurd (congrArg Prod.snd hinj) (by simp)
      · rw [if_neg hcon] at h
        have hass1 : (getVar (assignValueG g vid b) vid).assigned = true ∧
            (getVar (assignValueG g vid b) vid).value = b := by
          rw [show assignValueG g vid b = modifyVar g vid
            (fun v => { v with assigned := true, value := b }) from rfl,
            getVar_modifyVar, if_pos ⟨rfl, hvlt⟩]
          exact ⟨rfl, rfl⟩
        have mrest := simpRun_mono fuel _ _ _ h
        have hkeep := mrest.varKeep vid hass1.1
        refine ⟨hkeep.1, hkeep.2.trans hass1.2, ?_⟩
        intro k hk hkvar hktype hken
        have hv1 : (getEdge (assignValueG g vid b) k).varId = vid := by
          rw [← mrest.edgeVar k]
          exact hkvar
        have hmem : k ∈ varEdgeIdxs (assignValueG g vid b) vid := by
          apply List.mem_filter.mpr
          constructor
          · exact List.mem_range.mpr (by rw [← mrest.edgesLen]; exact hk)
          · simpa using hv1
        have ht1 : (getEdge (assignValueG g vid b) k).type =
            (getVar (assignValueG g vid b) vid).value := by
          rw [hass1.2, ← mrest.edgeType k]
          exact hktype
        have hbnd : ∀ j, j ∈ varEdgeIdxs (assignValueG g vid b) vid →
            j < (assignValueG g vid b).edges.length := by
          intro j hj
          exact List.mem_range.mp (List.mem_filter.mp hj).1
        have hl := cleanLoop_disables fuel (assignValueG g vid b) vid
          (varEdgeIdxs (assignValueG g vid b) vid) g' h hass1.1 hwf hbnd
          k hmem hv1 ht1 hken
        rw [mrest.edgeClause k]
        exact hl

/-- Graph for the C6 witness: three variables (the last one assigned
true), a binary clause on the first two, an empty clause slot, and a unit
clause on the second variable. -/
def gC6 : FactorGraph :=
  { vars := [⟨false, false, 1, 1, 0, 0, 0, 0, 0, 0⟩,
             ⟨false, false, 1, 1, 0, 0, 0, 0, 0, 0⟩,
             ⟨true, true, 1, 1, 0, 0, 0, 0, 0, 0⟩],
    clauses := [⟨true⟩, ⟨true⟩, ⟨true⟩],
    edges := [⟨0, 0, true, true, 0⟩, ⟨1, 0, true, true, 0⟩,
              ⟨1, 2, true, true, 0⟩] }

/-- The graph after successfully assigning variable 0 to true in `gC6`. -/
def gC6r : FactorGraph :=
  match assignVariableF 6 gC6 0 true with
  | some (g, _) => g
  | none => gC6

theorem c6_witness :
    (unitPropagationF 5 gC6 1 = some (gC6, false)) ∧
    (unitPropagationF 5 gC6 2 =
      assignVariableF 4 gC6 (getEdge gC6 2).varId (getEdge gC6 2).type) ∧
    (unitPropagationF 5 gC6 0 = some (gC6, true)) ∧
    (assignVariableF 5 gC6 2 false = some (gC6, false)) ∧
    ((getVar gC6r 0).assigned = true ∧ (getVar gC6r 0).value = true ∧
      ∀ k, k < gC6r.edges.length → (getEdge gC6r k).varId = 0 →
        (getEdge gC6r k).type = true → (getEdge gC6r k).enabled = true →
        (getClause gC6r (getEdge gC6r k).clauseId).enabled = false) :=
  ⟨c6_simplifier_contract.1 4 gC6 1
      (of_decide_eq_true (by with_unfolding_all rfl)),
   c6_simplifier_contract.2.1 4 gC6 2 2
      (of_decide_eq_true (by with_unfolding_all rfl)),
   c6_simplifier_contract.2.2.1 4 gC6 0
      (of_decide_eq_true (by with_unfolding_all rfl)),
   c6_simplifier_contract.2.2.2.1 4 gC6 2 false
      (of_decide_eq_true (by with_unfolding_all rfl))
      (of_decide_eq_true (by with_unfolding_all rfl)),
   c6_simplifier_contract.2.2.2.2 6 gC6 0 true gC6r
      (of_decide_eq_true (by with_unfolding_all rfl))
      (of_decide_eq_true (by with_unfolding_all rfl))
      (of_decide_eq_true (by with_unfolding_all rfl))⟩

end sat
